import Mathlib

/-!
# GLXOSD `FontRenderer`: glyph construction, glyph cache and text layout

A shallow embedding of `src/glxosd/FontRenderer.cpp`.

* The FreeType rasterizer, fontconfig and the colour arithmetic of `ColourRGBA`
  are outside the translated file; they enter as records of functions
  (`Rasterizer`, `FontConfig`, `FreeTypeSetup`, `ColourOps`).
* The integer types are those of the x86-64 Linux ABI: `char` is signed and 8 bits
  wide, `int` has 32 bits, `long` (`FT_Pos`) and `size_t` have 64 bits.
* A `float` is represented by the rational number it denotes; the only float
  computation of the file, `(int) (f * 64)`, is exact up to the final conversion,
  which truncates toward zero and yields `INT_MIN` when the value has no `int`.
* The pen coordinates `x` and `y` of `render` are 32-bit: every value stored in them
  is reduced to the two's-complement `int` (`wrapInt32`), as the narrowing `x += long`
  and the machine arithmetic do.  Where C++ leaves an overflowing `int` operation or
  conversion undefined, the layout theorems carry the hypothesis that the values are in
  range (`IsInt32`, `OriginInRange`).
* Pixel indices are mathematical integers (a bitmap has fewer than `2 ^ 31` pixels);
  the two conversions whose wrap-around is reachable with small values (a `char` used
  as a `size_t` index, and the `int - unsigned` centring difference) are modelled with
  their modulus.
* An access outside `std::vector` storage is undefined behaviour: the model
  returns `none`.
-/

set_option maxRecDepth 100000

namespace glxosd

/-! ## Scalars -/

/-- One code unit of a `std::string`. -/
abbrev Byte := Fin 256

/-- The value of a `char` that holds the byte `b`.  `char` is a signed 8-bit type
on the x86 Linux ABIs the overlay is built for. -/
def charOfByte (b : Byte) : Int :=
  if b.val < 128 then (b.val : Int) else (b.val : Int) - 256

/-- Conversion of an integer to a 64-bit unsigned type (`size_t` in
`glyphs[c]`, `FT_ULong` in `FT_Get_Char_Index (face, c)`). -/
def toUnsignedLong (c : Int) : Nat := (c % 2 ^ 64).toNat

/-- Conversion of a 32-bit unsigned value to `int`. -/
def toInt32 (u : Int) : Int := if u < 2 ^ 31 then u else u - 2 ^ 32

/-- The integer is a value of the 32-bit type `int`. -/
def IsInt32 (n : Int) : Prop := -2 ^ 31 ≤ n ∧ n < 2 ^ 31

instance (n : Int) : Decidable (IsInt32 n) :=
  inferInstanceAs (Decidable (-2 ^ 31 ≤ n ∧ n < 2 ^ 31))

/-- The two's-complement `int` congruent to an integer modulo `2 ^ 32`: what is stored
when a `long` is narrowed to `int`, and what the machine computes when `int` arithmetic
overflows. -/
def wrapInt32 (n : Int) : Int := toInt32 (n % 2 ^ 32)

/-- The rational `q * 64` rounded toward zero. -/
def truncTimes64 (q : ℚ) : Int := Int.tdiv (q.num * 64) q.den

/-- The C expression `(int) (q * 64)` for a float of value `q`.  The product is exact;
the conversion truncates toward zero when the result is an `int`.  Otherwise C++ leaves
it undefined, and the x86 conversion instruction returns `INT_MIN`. -/
def toInt64ths (q : ℚ) : Int :=
  if IsInt32 (truncTimes64 q) then truncTimes64 q else -2 ^ 31

abbrev FT_Error := Int

/-- The exception type thrown by the file, `std::runtime_error`, with its message. -/
inductive Exception where
  | runtime_error (what : String)
deriving DecidableEq, Repr

/-! ## FreeType and OpenGL data -/

structure FT_Vector where
  x : Int
  y : Int
deriving DecidableEq, Repr

structure FT_Glyph_Metrics where
  width : Int
  height : Int
  horiBearingX : Int
  horiBearingY : Int
  horiAdvance : Int
  vertBearingX : Int
  vertBearingY : Int
  vertAdvance : Int
deriving DecidableEq, Repr

/-- An 8-bit coverage bitmap.  The file addresses `buffer` with `width` as the row
stride.  Dimensions are below `2 ^ 31`, so they are kept when stored in an `int`. -/
structure FT_Bitmap where
  rows : Nat
  width : Nat
  buffer : List Nat
deriving DecidableEq, Repr

/-- The type of `FT_Bitmap::rows` and `FT_Bitmap::width`, which the FreeType header
fixes: `int` up to FreeType 2.5.3, `unsigned int` afterwards. -/
inductive DimType where
  | signedInt
  | unsignedInt
deriving DecidableEq, Repr

/-- The part of `face->glyph` that `createGlyph` reads after `FT_Load_Glyph`. -/
structure FT_GlyphSlot where
  bitmap : FT_Bitmap
  advance : FT_Vector
  metrics : FT_Glyph_Metrics
deriving DecidableEq, Repr

inductive LoadFlags where
  | FT_LOAD_RENDER
  | FT_LOAD_NO_BITMAP
deriving DecidableEq, Repr

/-- The rasterizer as `createGlyph` uses it, for the face of one `FontRenderer`. -/
structure Rasterizer where
  /-- The glyph index of a character code; `0` is the undefined character code. -/
  FT_Get_Char_Index : Nat → Nat
  /-- The error code of `FT_Load_Glyph` and the glyph slot it leaves. -/
  FT_Load_Glyph : Nat → LoadFlags → FT_Error × FT_GlyphSlot
  /-- Lines 170-182: the loaded outline stroked with the given radius (round caps and
  joins) and rendered with `FT_Glyph_To_Bitmap`. -/
  strokeToBitmap : FT_GlyphSlot → Int → FT_Bitmap
  dimType : DimType

/-- The operations of `ColourRGBA` that `createGlyph` uses; the class is declared
in a header outside the translated file. -/
structure ColourOps (C : Type) where
  /-- The default constructor `ColourRGBA ()`. -/
  default : C
  /-- The constructor `ColourRGBA (r, g, b, a)`. -/
  rgba : Nat → Nat → Nat → Nat → C
  mul : C → C → C
  add : C → C → C

def GL_TRIANGLES : Nat := 4

/-- The arguments a `VertexBuffer` is constructed with. -/
structure VertexBuffer (C : Type) where
  vertices : List Int
  indices : List Nat
  width : Nat
  height : Nat
  pixels : List C
  mode : Nat
deriving DecidableEq, Repr

structure Glyph (C : Type) where
  vertexBuffer : Option (VertexBuffer C)
  advance : FT_Vector
  metrics : FT_Glyph_Metrics
deriving DecidableEq, Repr

/-- Modelled from the spec: the class `Optional` (its header is not among the
sources) holds the pointer it was constructed with, possibly null, and `get`
returns that pointer. -/
structure Optional (α : Type) where
  get : Option α
deriving DecidableEq, Repr

/-- The object state.  `created` and `lookups` are instrumentation, absent from the
C++ object: the codes `createGlyph` and `getGlyph` were called with, in call order. -/
structure FontRenderer (C : Type) where
  fontSize : Int
  outlineWidth : ℚ
  textSpacingX : ℚ
  textSpacingY : ℚ
  textPositionX : Int
  textPositionY : Int
  lineHeight : Int
  fontColour : C
  fontOutlineColour : C
  glyphs : List (Option (Optional (Glyph C)))
  created : List Int
  lookups : List Int
deriving DecidableEq

/-! ## Construction -/

/-- The answer of fontconfig for a font name: `FcFontMatch` returns no pattern, or a
pattern for which `FcPatternGetString (font, FC_FILE, 0, &file)` gives a file or not. -/
structure FontConfig where
  FcFontMatch : String → Option (Option String)

/-- The answers of FreeType during construction and the error table of
`FT_ERRORS_H`. -/
structure FreeTypeSetup where
  FT_Init_FreeType : FT_Error
  FT_New_Face : String → FT_Error
  FT_Set_Char_Size : Int → Int → Int → Int → FT_Error
  bboxYMax : Int
  bboxYMin : Int
  y_scale : Int
  FT_MulFix : Int → Int → Int
  ft_errors : List (Int × String)

/-- The FreeType calls of the constructor, for the call log. -/
inductive FtCall where
  | FT_Init_FreeType
  | FT_New_Face (file : String)
  | FT_Set_Char_Size (width height hdpi vdpi : Int)
deriving DecidableEq, Repr

def handleFreetypeError (ft_errors : List (Int × String)) (error : FT_Error) :
    Except Exception Unit :=
  if error = 0 then .ok ()
  else
    let errorMessage :=
      match ft_errors.find? (fun e => e.1 == error) with
      | some e => e.2
      | none => ""
    .error (.runtime_error ("Freetype error: " ++ errorMessage))

def getFontPath (fc : FontConfig) (name : String) : String :=
  match fc.FcFontMatch name with
  | some font =>
    match font with
    | some file => file
    | none => ""
  | none => ""

/-- The constructor `FontRenderer::FontRenderer`: the FreeType calls it made, and the
object or the exception. -/
def newFontRenderer {C : Type} (K : ColourOps C) (fc : FontConfig)
    (ft : FreeTypeSetup) (name : String) (fontSize horizontalDPI verticalDPI : Int)
    (outlineWidth : ℚ) : List FtCall × Except Exception (FontRenderer C) :=
  let fontFile := getFontPath fc name
  if fontFile = "" then
    ([], .error (.runtime_error ("Couldn't find font: " ++ name)))
  else
    let log1 := [FtCall.FT_Init_FreeType]
    match handleFreetypeError ft.ft_errors ft.FT_Init_FreeType with
    | .error e => (log1, .error e)
    | .ok _ =>
      let log2 := log1 ++ [FtCall.FT_New_Face fontFile]
      match handleFreetypeError ft.ft_errors (ft.FT_New_Face fontFile) with
      | .error e => (log2, .error e)
      | .ok _ =>
        let log3 := log2 ++ [FtCall.FT_Set_Char_Size 0 (fontSize * 64) horizontalDPI verticalDPI]
        match handleFreetypeError ft.ft_errors
            (ft.FT_Set_Char_Size 0 (fontSize * 64) horizontalDPI verticalDPI) with
        | .error e => (log3, .error e)
        | .ok _ =>
          (log3, .ok
            { fontSize := fontSize
              outlineWidth := outlineWidth
              textSpacingX := 0
              textSpacingY := 0
              textPositionX := 0
              textPositionY := 0
              lineHeight := ft.FT_MulFix (ft.bboxYMax - ft.bboxYMin) ft.y_scale
              fontColour := K.default
              fontOutlineColour := K.default
              glyphs := List.replicate 256 none
              created := []
              lookups := [] })

def FontRenderer.setTextSpacingX {C : Type} (self : FontRenderer C) (spacing : ℚ) :
    FontRenderer C := { self with textSpacingX := spacing }

def FontRenderer.setTextSpacingY {C : Type} (self : FontRenderer C) (spacing : ℚ) :
    FontRenderer C := { self with textSpacingY := spacing }

def FontRenderer.setTextPositionX {C : Type} (self : FontRenderer C) (position : Int) :
    FontRenderer C := { self with textPositionX := position }

def FontRenderer.setTextPositionY {C : Type} (self : FontRenderer C) (position : Int) :
    FontRenderer C := { self with textPositionY := position }

def FontRenderer.setFontColour {C : Type} (self : FontRenderer C) (colour : C) :
    FontRenderer C := { self with fontColour := colour }

def FontRenderer.setFontOutlineColour {C : Type} (self : FontRenderer C) (colour : C) :
    FontRenderer C := { self with fontOutlineColour := colour }

/-! ## Glyph construction -/

/-- A memory access of the compositing loop: a read of `mainBitmap.buffer` (with the
fill coordinates it was computed from), a read of the stroke buffer, a write of
`finalColor`. -/
inductive Access where
  | fillRead (x y index : Int)
  | strokeRead (index : Nat)
  | imageWrite (index : Nat)
deriving DecidableEq, Repr

/-- The image under construction and the accesses made so far. -/
structure Canvas (C : Type) where
  finalColor : List C
  accesses : List Access
deriving DecidableEq

/-- Lines 195-196: `outlineC - (imageDim - mainDim) / 2` stored in an `int`.  With
`int` bitmap fields the division is the truncating C division; with `unsigned int`
fields the difference, the quotient and the subtraction are taken modulo `2 ^ 32`
and the result is converted back to `int`. -/
def fillCoord (t : DimType) (outlineC imageDim mainDim : Nat) : Int :=
  match t with
  | .signedInt => (outlineC : Int) - Int.tdiv ((imageDim : Int) - (mainDim : Int)) 2
  | .unsignedInt =>
    toInt32 (((outlineC : Int) - (((imageDim : Int) - (mainDim : Int)) % 2 ^ 32) / 2) % 2 ^ 32)

/-- The colour of lines 206-209 for the two coverage values. -/
def blend {C : Type} (K : ColourOps C) (fontColour fontOutlineColour : C)
    (baseAlpha outlineAlpha : Nat) : C :=
  K.add (K.mul (K.rgba 255 255 255 baseAlpha) fontColour)
    (K.mul (K.rgba 255 255 255 outlineAlpha) fontOutlineColour)

/-- The body of the inner loop, lines 195-209. -/
def compositePixel {C : Type} (K : ColourOps C) (t : DimType) (fontColour fontOutlineColour : C)
    (mainBitmap outline : FT_Bitmap) (outlineY outlineX : Nat) (cv : Canvas C) : Canvas C :=
  let imageHeight := outline.rows
  let imageWidth := outline.width
  let y := fillCoord t outlineY imageHeight mainBitmap.rows
  let x := fillCoord t outlineX imageWidth mainBitmap.width
  let inRange : Bool :=
    decide (y ≥ 0 ∧ x ≥ 0 ∧ y < (mainBitmap.rows : Int) ∧ x < (mainBitmap.width : Int))
  let fillIndex : Int := x + (mainBitmap.width : Int) * y
  let baseAlpha : Nat := if inRange then mainBitmap.buffer.getD fillIndex.toNat 0 else 0
  let outlineAlpha : Nat := outline.buffer.getD (outlineX + imageWidth * outlineY) 0
  { finalColor :=
      cv.finalColor.set (outlineY * imageWidth + outlineX)
        (blend K fontColour fontOutlineColour baseAlpha outlineAlpha)
    accesses :=
      cv.accesses ++ (if inRange then [Access.fillRead x y fillIndex] else []) ++
        [Access.strokeRead (outlineX + imageWidth * outlineY),
         Access.imageWrite (outlineY * imageWidth + outlineX)] }

/-- The inner loop, line 194, for one `outlineY`. -/
def compositeRow {C : Type} (K : ColourOps C) (t : DimType) (fontColour fontOutlineColour : C)
    (mainBitmap outline : FT_Bitmap) (outlineY : Nat) (cv : Canvas C) : Canvas C :=
  (List.range outline.width).foldl
    (fun acc outlineX =>
      compositePixel K t fontColour fontOutlineColour mainBitmap outline outlineY outlineX acc)
    cv

/-- Lines 192-212: the image allocated with `imageWidth * imageHeight` default
colours, then the two nested loops. -/
def composite {C : Type} (K : ColourOps C) (t : DimType) (fontColour fontOutlineColour : C)
    (mainBitmap outline : FT_Bitmap) : Canvas C :=
  (List.range outline.rows).foldl
    (fun acc outlineY =>
      compositeRow K t fontColour fontOutlineColour mainBitmap outline outlineY acc)
    { finalColor := List.replicate (outline.width * outline.rows) K.default
      accesses := [] }

/-- The value `baseAlpha` of lines 198-201 for stroke pixel `(outlineX, outlineY)`. -/
def baseAlphaAt (t : DimType) (mainBitmap outline : FT_Bitmap) (outlineY outlineX : Nat) : Nat :=
  let y := fillCoord t outlineY outline.rows mainBitmap.rows
  let x := fillCoord t outlineX outline.width mainBitmap.width
  if y ≥ 0 ∧ x ≥ 0 ∧ y < (mainBitmap.rows : Int) ∧ x < (mainBitmap.width : Int) then
    mainBitmap.buffer.getD (x + (mainBitmap.width : Int) * y).toNat 0
  else 0

/-- The colour the loop body stores for stroke pixel `(outlineX, outlineY)`. -/
def pixelColour {C : Type} (K : ColourOps C) (t : DimType) (fontColour fontOutlineColour : C)
    (mainBitmap outline : FT_Bitmap) (outlineY outlineX : Nat) : C :=
  blend K fontColour fontOutlineColour (baseAlphaAt t mainBitmap outline outlineY outlineX)
    (outline.buffer.getD (outlineX + outline.width * outlineY) 0)

/-- The accesses the loop body makes for stroke pixel `(outlineX, outlineY)`. -/
def pixelAccesses (t : DimType) (mainBitmap outline : FT_Bitmap) (outlineY outlineX : Nat) :
    List Access :=
  let y := fillCoord t outlineY outline.rows mainBitmap.rows
  let x := fillCoord t outlineX outline.width mainBitmap.width
  (if y ≥ 0 ∧ x ≥ 0 ∧ y < (mainBitmap.rows : Int) ∧ x < (mainBitmap.width : Int) then
    [Access.fillRead x y (x + (mainBitmap.width : Int) * y)] else []) ++
    [Access.strokeRead (outlineX + outline.width * outlineY),
     Access.imageWrite (outlineY * outline.width + outlineX)]

/-- The indices of `finalColor` written, in the order of the writes. -/
def writtenIndices (accesses : List Access) : List Nat :=
  accesses.filterMap fun a =>
    match a with
    | .imageWrite i => some i
    | _ => none

def quadVertices : List Int :=
  [0, 0, 0, 0, 1,
   0, 1, 0, 0, 0,
   1, 1, 0, 1, 0,
   1, 0, 0, 1, 1]

def quadIndices : List Nat := [0, 1, 2, 2, 3, 0]

/-- The function `createGlyph`; `none` is the null pointer. -/
def createGlyph {C : Type} (K : ColourOps C) (R : Rasterizer) (self : FontRenderer C)
    (c : Int) : Option (Glyph C) :=
  let glyphIndex := R.FT_Get_Char_Index (toUnsignedLong c)
  let rendered := R.FT_Load_Glyph glyphIndex .FT_LOAD_RENDER
  if rendered.1 ≠ 0 then none
  else if rendered.2.bitmap.width ≤ 0 ∨ rendered.2.bitmap.rows ≤ 0 then
    some { vertexBuffer := none, advance := rendered.2.advance, metrics := rendered.2.metrics }
  else
    let mainBitmap := rendered.2.bitmap
    let reloaded := R.FT_Load_Glyph glyphIndex .FT_LOAD_NO_BITMAP
    if reloaded.1 ≠ 0 then none
    else
      let outline := R.strokeToBitmap reloaded.2 (toInt64ths self.outlineWidth)
      let imageHeight := outline.rows
      let imageWidth := outline.width
      if imageHeight ≤ 0 ∨ imageWidth ≤ 0 then none
      else
        let finalColor :=
          (composite K R.dimType self.fontColour self.fontOutlineColour mainBitmap
            outline).finalColor
        let vertexBuffer : VertexBuffer C :=
          { vertices := quadVertices
            indices := quadIndices
            width := imageWidth
            height := imageHeight
            pixels := finalColor
            mode := GL_TRIANGLES }
        some { vertexBuffer := some vertexBuffer
               advance := reloaded.2.advance
               metrics := reloaded.2.metrics }

/-! ## Glyph cache and layout -/

/-- The function `getGlyph`: the returned pointer and the object afterwards; `none`
when `glyphs[c]` lies outside the vector. -/
def getGlyph {C : Type} (K : ColourOps C) (R : Rasterizer) (self : FontRenderer C)
    (c : Int) : Option (Option (Glyph C) × FontRenderer C) :=
  match self.glyphs[toUnsignedLong c]? with
  | none => none
  | some none =>
    let made := Optional.mk (createGlyph K R self c)
    some (made.get,
      { self with
        glyphs := self.glyphs.set (toUnsignedLong c) (some made)
        created := self.created ++ [c]
        lookups := self.lookups ++ [c] })
  | some (some slot) => some (slot.get, { self with lookups := self.lookups ++ [c] })

/-- A call `vertexBuffer->render (screenX, screeny, width, height)`.  The two float
arguments are `(GLfloat) screenX64 / 64.0f` and `(GLfloat) screenY64 / 64.0f`; the
record keeps the integer numerators. -/
structure DrawCall (C : Type) where
  vertexBuffer : VertexBuffer C
  screenX64 : Int
  screenY64 : Int
  width : Int
  height : Int
deriving DecidableEq, Repr

/-- The variables of `render` between two iterations of its loop; `x` and `y` hold
values of type `int`. -/
structure RenderState (C : Type) where
  x : Int
  y : Int
  self : FontRenderer C
  draws : List (DrawCall C)
deriving DecidableEq

/-- One iteration of the loop of `render`, lines 123-141.  The right-hand sides of the
assignments to `x` and `y` are computed as written and stored as `int`. -/
def renderChar {C : Type} (K : ColourOps C) (R : Rasterizer) (width height : Int)
    (st : RenderState C) (b : Byte) : Option (RenderState C) :=
  let c := charOfByte b
  if c = 10 then
    some { st with
      x := wrapInt32 (st.self.textPositionX * 64)
      y := wrapInt32 (st.y - (st.self.lineHeight + toInt64ths st.self.textSpacingY)) }
  else
    match getGlyph K R st.self c with
    | none => none
    | some (none, self1) => some { st with self := self1 }
    | some (some glyph, self1) =>
      let screenX64 := st.x + glyph.metrics.horiBearingX
      let screenY64 := st.y + glyph.metrics.horiBearingY - glyph.metrics.height
      let draws :=
        match glyph.vertexBuffer with
        | some vb => st.draws ++ [DrawCall.mk vb screenX64 screenY64 width height]
        | none => st.draws
      some { x := wrapInt32 (st.x + (glyph.advance.x + toInt64ths self1.textSpacingX))
             y := wrapInt32 (st.y - glyph.advance.y)
             self := self1
             draws := draws }

/-- The loop of `render` over the code units of the string. -/
def renderLoop {C : Type} (K : ColourOps C) (R : Rasterizer) (width height : Int) :
    List Byte → RenderState C → Option (RenderState C)
  | [], st => some st
  | b :: rest, st =>
    match renderChar K R width height st b with
    | none => none
    | some st1 => renderLoop K R width height rest st1

/-- Lines 120-121: the state in which the loop of `render` starts. -/
def renderStart {C : Type} (self : FontRenderer C) : RenderState C :=
  { x := wrapInt32 (self.textPositionX * 64)
    y := wrapInt32 (-(self.textPositionY * 64) - self.lineHeight)
    self := self
    draws := [] }

/-- The function `render`: the final loop state, which holds the object afterwards,
the draw calls issued and the final pen. -/
def render {C : Type} (K : ColourOps C) (R : Rasterizer) (self : FontRenderer C)
    (width height : Int) (str : List Byte) : Option (RenderState C) :=
  renderLoop K R width height str (renderStart self)

/-! ## Notions used in the statements -/

/-- The pointer `getGlyph` returns for code `c` in the state `self`: `none` when the
access falls outside the table, `some none` for the null pointer. -/
def resolvedGlyph {C : Type} (K : ColourOps C) (R : Rasterizer) (self : FontRenderer C)
    (c : Int) : Option (Option (Glyph C)) :=
  (getGlyph K R self c).map Prod.fst

/-- The first call of `createGlyph` to the rasterizer for code `c`: the error code and
the glyph slot of `FT_Load_Glyph (face, FT_Get_Char_Index (face, c), FT_LOAD_RENDER)`. -/
def loadRendered (R : Rasterizer) (c : Int) : FT_Error × FT_GlyphSlot :=
  R.FT_Load_Glyph (R.FT_Get_Char_Index (toUnsignedLong c)) .FT_LOAD_RENDER

/-- The glyph without geometry that carries the advance and the metrics of a slot. -/
def emptyGlyph (C : Type) (slot : FT_GlyphSlot) : Glyph C :=
  { vertexBuffer := none, advance := slot.advance, metrics := slot.metrics }

/-- The draw calls the loop body of `render` issues for a glyph at pen `(x, y)`: one
when the glyph has geometry, none otherwise. -/
def glyphDraws {C : Type} (g : Glyph C) (x y width height : Int) : List (DrawCall C) :=
  match g.vertexBuffer with
  | some vb =>
    [DrawCall.mk vb (x + g.metrics.horiBearingX)
      (y + g.metrics.horiBearingY - g.metrics.height) width height]
  | none => []

/-- Lines 120-121 and the line height are evaluated inside the range of `int`: the
products, the negation and the difference do not overflow. -/
def OriginInRange {C : Type} (r : FontRenderer C) : Prop :=
  IsInt32 r.lineHeight ∧ IsInt32 (r.textPositionX * 64) ∧ IsInt32 (r.textPositionY * 64) ∧
  IsInt32 (-(r.textPositionY * 64)) ∧ IsInt32 (-(r.textPositionY * 64) - r.lineHeight)

instance {C : Type} (r : FontRenderer C) : Decidable (OriginInRange r) :=
  inferInstanceAs (Decidable (IsInt32 r.lineHeight ∧ IsInt32 (r.textPositionX * 64) ∧
    IsInt32 (r.textPositionY * 64) ∧ IsInt32 (-(r.textPositionY * 64)) ∧
    IsInt32 (-(r.textPositionY * 64) - r.lineHeight)))

/-- Two states agree on every field that only the constructor and the setters write. -/
def SameSettings {C : Type} (r r1 : FontRenderer C) : Prop :=
  r1.fontSize = r.fontSize ∧ r1.outlineWidth = r.outlineWidth ∧
  r1.textSpacingX = r.textSpacingX ∧ r1.textSpacingY = r.textSpacingY ∧
  r1.textPositionX = r.textPositionX ∧ r1.textPositionY = r.textPositionY ∧
  r1.lineHeight = r.lineHeight ∧ r1.fontColour = r.fontColour ∧
  r1.fontOutlineColour = r.fontOutlineColour

/-- The state `r1` has the settings of `r`, a table of the same size, and `getGlyph`
returns in it what it returns in `r`. -/
def Evolves {C : Type} (K : ColourOps C) (R : Rasterizer) (r r1 : FontRenderer C) : Prop :=
  SameSettings r r1 ∧ r1.glyphs.length = r.glyphs.length ∧
  ∀ c : Int, resolvedGlyph K R r1 c = resolvedGlyph K R r c

/-- Every resolved slot holds what `createGlyph` returned for its index, under some
setting of the colours and the outline width. -/
def CacheCoherent {C : Type} (K : ColourOps C) (R : Rasterizer) (r : FontRenderer C) : Prop :=
  ∀ (i : Nat) (s : Optional (Glyph C)), r.glyphs[i]? = some (some s) →
    ∃ r0 : FontRenderer C, s.get = createGlyph K R r0 (i : Int)

/-- The instrumentation agrees with the table: `createGlyph` ran for pairwise different
slots, and each of them is resolved. -/
def CreatedOnce {C : Type} (r : FontRenderer C) : Prop :=
  (r.created.map toUnsignedLong).Nodup ∧
  ∀ c ∈ r.created, ∃ s : Optional (Glyph C), r.glyphs[toUnsignedLong c]? = some (some s)

/-- A call a client can make on a constructed object. -/
inductive Call (C : Type) where
  | render (width height : Int) (str : List Byte)
  | getGlyph (c : Int)
  | setTextSpacingX (spacing : ℚ)
  | setTextSpacingY (spacing : ℚ)
  | setTextPositionX (position : Int)
  | setTextPositionY (position : Int)
  | setFontColour (colour : C)
  | setFontOutlineColour (colour : C)

/-- The object after one call; `none` when the call runs into an access outside the
table. -/
def runCall {C : Type} (K : ColourOps C) (R : Rasterizer) (self : FontRenderer C) :
    Call C → Option (FontRenderer C)
  | .render width height str => (render K R self width height str).map (·.self)
  | .getGlyph c => (getGlyph K R self c).map Prod.snd
  | .setTextSpacingX q => some (self.setTextSpacingX q)
  | .setTextSpacingY q => some (self.setTextSpacingY q)
  | .setTextPositionX p => some (self.setTextPositionX p)
  | .setTextPositionY p => some (self.setTextPositionY p)
  | .setFontColour col => some (self.setFontColour col)
  | .setFontOutlineColour col => some (self.setFontOutlineColour col)

/-- The object after a sequence of calls. -/
def runCalls {C : Type} (K : ColourOps C) (R : Rasterizer) :
    List (Call C) → FontRenderer C → Option (FontRenderer C)
  | [], self => some self
  | call :: rest, self =>
    match runCall K R self call with
    | none => none
    | some self1 => runCalls K R rest self1

/-! ## Concrete instances

The properties below are proved for every rasterizer and every colour algebra; the
instances here serve to evaluate the functions on explicit inputs. -/

abbrev Rgba := Nat × Nat × Nat × Nat

/-- A colour algebra on RGBA quadruples: multiplication scales each channel of the
second colour by the matching channel of the first over 255, addition is channel-wise. -/
def rgbaTuples : ColourOps Rgba where
  default := (0, 0, 0, 0)
  rgba := fun r g b a => (r, g, b, a)
  mul := fun p q => (p.1 * q.1 / 255, p.2.1 * q.2.1 / 255, p.2.2.1 * q.2.2.1 / 255,
    p.2.2.2 * q.2.2.2 / 255)
  add := fun p q => (p.1 + q.1, p.2.1 + q.2.1, p.2.2.1 + q.2.2.1, p.2.2.2 + q.2.2.2)

/-- Metrics of a glyph of the given pixel size and advance, bearings zero. -/
def boxMetrics (widthPx heightPx advance : Int) : FT_Glyph_Metrics :=
  { width := widthPx * 64, height := heightPx * 64, horiBearingX := 0,
    horiBearingY := heightPx * 64, horiAdvance := advance, vertBearingX := 0,
    vertBearingY := 0, vertAdvance := 0 }

/-- A glyph slot with a fully covered `w x h` bitmap. -/
def boxSlot (w h : Nat) (advance : FT_Vector) : FT_GlyphSlot :=
  { bitmap := { rows := h, width := w, buffer := List.replicate (w * h) 255 }
    advance := advance
    metrics := boxMetrics w h advance.x }

/-- A small face: `A` (65) and `B` (66) are 1 x 1 boxes, `V` (86) is a box whose advance
has a vertical component, the space (32) has an empty bitmap, `?` (63) maps to a glyph
that fails to load, and every other code has no mapping (glyph index 0, the
missing-glyph box, which loads). -/
def demoFace (t : DimType) : Rasterizer where
  FT_Get_Char_Index := fun code =>
    if code = 65 then 1 else if code = 32 then 2 else if code = 66 then 3
    else if code = 86 then 4 else if code = 63 then 9 else 0
  FT_Load_Glyph := fun index _ =>
    if index = 0 then (0, boxSlot 2 2 ⟨192, 0⟩)
    else if index = 1 then (0, boxSlot 1 1 ⟨640, 0⟩)
    else if index = 2 then (0, boxSlot 0 0 ⟨256, 0⟩)
    else if index = 3 then (0, boxSlot 1 1 ⟨576, 0⟩)
    else if index = 4 then (0, boxSlot 1 1 ⟨640, 64⟩)
    else (6, boxSlot 0 0 ⟨0, 0⟩)
  strokeToBitmap := fun slot _ =>
    { rows := slot.bitmap.rows + 2, width := slot.bitmap.width + 2,
      buffer := List.replicate ((slot.bitmap.rows + 2) * (slot.bitmap.width + 2)) 128 }
  dimType := t

/-- A face in which every code, the newline included, maps to a glyph with an empty
bitmap and advance 256. -/
def blankFace : Rasterizer where
  FT_Get_Char_Index := fun _ => 2
  FT_Load_Glyph := fun _ _ => (0, boxSlot 0 0 ⟨256, 0⟩)
  strokeToBitmap := fun _ _ => { rows := 0, width := 0, buffer := [] }
  dimType := .unsignedInt

/-- A renderer with an empty glyph table, line height 1024, white text and a black
outline. -/
def demoRenderer : FontRenderer Rgba :=
  { fontSize := 12, outlineWidth := 1, textSpacingX := 0, textSpacingY := 0,
    textPositionX := 0, textPositionY := 0, lineHeight := 1024,
    fontColour := (255, 255, 255, 255), fontOutlineColour := (0, 0, 0, 255),
    glyphs := List.replicate 256 none, created := [], lookups := [] }

/-- The glyph `createGlyph` builds for `A` in `demoFace` with the colours of
`demoRenderer`: a 3 x 3 image around the 1 x 1 fill bitmap. -/
def demoGlyphA : Glyph Rgba :=
  { vertexBuffer := some
      { vertices := quadVertices
        indices := quadIndices
        width := 3
        height := 3
        pixels := [(255, 255, 255, 128), (255, 255, 255, 128), (255, 255, 255, 128),
                   (255, 255, 255, 128), (255, 255, 255, 383), (255, 255, 255, 128),
                   (255, 255, 255, 128), (255, 255, 255, 128), (255, 255, 255, 128)]
        mode := GL_TRIANGLES }
    advance := ⟨640, 0⟩
    metrics := boxMetrics 1 1 640 }

/-! ## Conversions -/

theorem charOfByte_of_lt {b : Byte} (h : b.val < 128) : charOfByte b = (b.val : Int) := by
  simp [charOfByte, h]

theorem toUnsignedLong_of_nonneg {c : Int} (h0 : 0 ≤ c) (h1 : c < 2 ^ 64) :
    toUnsignedLong c = c.toNat := by
  unfold toUnsignedLong
  rw [Int.emod_eq_of_lt h0 h1]

/-- For the low half of the code units the table index is the code unit itself. -/
theorem index_of_low_byte {b : Byte} (h : b.val < 128) :
    toUnsignedLong (charOfByte b) = b.val := by
  rw [charOfByte_of_lt h, toUnsignedLong_of_nonneg (by omega) (by omega)]
  simp

theorem truncTimes64_integer (n : Int) : truncTimes64 (n : ℚ) = n * 64 := by
  simp [truncTimes64]

theorem floor_times64 (q : ℚ) : ⌊q * 64⌋ = (q.num * 64) / (q.den : Int) := by
  rw [← Rat.floor_intCast_div_natCast]
  congr 1
  push_cast
  conv_lhs => rw [← Rat.num_div_den q]
  ring

/-- The function `truncTimes64` is the rational `q * 64` rounded toward zero. -/
theorem truncTimes64_eq_truncation (q : ℚ) :
    truncTimes64 q = if 0 ≤ q then ⌊q * 64⌋ else ⌈q * 64⌉ := by
  unfold truncTimes64
  split
  · next h =>
    have hn : 0 ≤ q.num := Rat.num_nonneg.2 h
    rw [Int.tdiv_eq_ediv (by omega) (Int.natCast_nonneg _), floor_times64]
  · next h =>
    have hn : q.num < 0 := by
      by_contra hge
      exact h (Rat.num_nonneg.1 (by omega))
    have e : q.num * 64 = -((-q).num * 64) := by simp
    have hfl := floor_times64 (-q)
    rw [e, Int.neg_tdiv, Int.tdiv_eq_ediv (by simp; omega) (Int.natCast_nonneg _)]
    have : ⌈q * 64⌉ = -⌊(-q) * 64⌋ := by
      rw [← Int.ceil_neg]
      congr 1
      ring
    rw [this, hfl]
    simp

/-- Inside the range of `int` the conversion `(int) (q * 64)` is the truncation. -/
theorem toInt64ths_of_isInt32 {q : ℚ} (h : IsInt32 (truncTimes64 q)) :
    toInt64ths q = truncTimes64 q := by
  simp [toInt64ths, h]

theorem toInt64ths_isInt32 (q : ℚ) : IsInt32 (toInt64ths q) := by
  unfold toInt64ths
  split
  · next h => exact h
  · unfold IsInt32
    omega

theorem wrapInt32_of_isInt32 {n : Int} (h : IsInt32 n) : wrapInt32 n = n := by
  unfold IsInt32 at h
  unfold wrapInt32 toInt32
  split <;> omega

theorem wrapInt32_isInt32 (n : Int) : IsInt32 (wrapInt32 n) := by
  unfold IsInt32 wrapInt32 toInt32
  split <;> omega

/-- Storing an intermediate value as `int` does not change what a later sum or
difference stores. -/
theorem wrapInt32_add_left (a b : Int) : wrapInt32 (wrapInt32 a + b) = wrapInt32 (a + b) := by
  unfold wrapInt32 toInt32
  split <;> split <;> split <;> omega

theorem wrapInt32_sub_left (a b : Int) : wrapInt32 (wrapInt32 a - b) = wrapInt32 (a - b) := by
  unfold wrapInt32 toInt32
  split <;> split <;> split <;> omega

/-! ## Centring of the fill bitmap -/

/-- When the fill dimension does not exceed the stroke dimension, both integer typings
of the bitmap fields give the same fill coordinate. -/
theorem fillCoord_of_le (t : DimType) (X W w : Nat) (hw : w ≤ W) (hX : X < W)
    (hW : W < 2 ^ 31) : fillCoord t X W w = (X : Int) - (((W - w) / 2 : Nat) : Int) := by
  have hd : ((W : Int) - (w : Int)) = ((W - w : Nat) : Int) := by omega
  cases t with
  | signedInt =>
    simp only [fillCoord]
    rw [hd, Int.tdiv_eq_ediv (by omega) (by omega)]
    omega
  | unsignedInt =>
    simp only [fillCoord, toInt32]
    rw [hd]
    split <;> omega

/-- The test of line 199-200 in terms of the offsets. -/
theorem inRange_iff_footprint (X Y W H w h : Nat) (hw : w ≤ W) (hh : h ≤ H) :
    (((Y : Int) - (((H - h) / 2 : Nat) : Int) ≥ 0 ∧ (X : Int) - (((W - w) / 2 : Nat) : Int) ≥ 0 ∧
      (Y : Int) - (((H - h) / 2 : Nat) : Int) < (h : Int) ∧
      (X : Int) - (((W - w) / 2 : Nat) : Int) < (w : Int)) ↔
    ((W - w) / 2 ≤ X ∧ X < (W - w) / 2 + w ∧ (H - h) / 2 ≤ Y ∧ Y < (H - h) / 2 + h)) := by
  omega

/-- Claim C3, as the code has it: along each axis on which the fill bitmap is no larger
than the stroke bitmap, stroke pixel `X` samples fill coordinate `X - floor ((W - w) / 2)`,
so the fill bitmap's corner sits at offset `floor ((W - w) / 2)`; the two axes are
computed independently, and `W = 11`, `w = 4` gives offset 3. -/
theorem centring_offset (t : DimType) (X Y W H w h : Nat) (hW : W < 2 ^ 31) (hH : H < 2 ^ 31)
    (hX : X < W) (hY : Y < H) :
    (w ≤ W → fillCoord t X W w = (X : Int) - Int.fdiv ((W : Int) - (w : Int)) 2) ∧
    (h ≤ H → fillCoord t Y H h = (Y : Int) - Int.fdiv ((H : Int) - (h : Int)) 2) ∧
    fillCoord t 3 11 4 = 0 := by
  refine ⟨fun hw => ?_, fun hh => ?_, ?_⟩
  · rw [fillCoord_of_le t X W w hw hX hW, Int.fdiv_eq_ediv _ (by omega)]
    omega
  · rw [fillCoord_of_le t Y H h hh hY hH, Int.fdiv_eq_ediv _ (by omega)]
    omega
  · cases t <;> decide

theorem centring_offset_witness :
    fillCoord .unsignedInt 5 11 4 =
      ((5 : Nat) : Int) - Int.fdiv (((11 : Nat) : Int) - ((4 : Nat) : Int)) 2 ∧
    fillCoord .unsignedInt 2 9 7 =
      ((2 : Nat) : Int) - Int.fdiv (((9 : Nat) : Int) - ((7 : Nat) : Int)) 2 ∧
    fillCoord .unsignedInt 3 11 4 = 0 :=
  ⟨(centring_offset .unsignedInt 5 2 11 9 4 7 (by decide) (by decide) (by decide)
      (by decide)).1 (by decide),
    (centring_offset .unsignedInt 5 2 11 9 4 7 (by decide) (by decide) (by decide)
      (by decide)).2.1 (by decide),
    (centring_offset .unsignedInt 5 2 11 9 4 7 (by decide) (by decide) (by decide)
      (by decide)).2.2⟩

/-- Claim C3 as stated fails when the fill bitmap is wider than the stroke bitmap: for
`W = 4`, `w = 7` the floor offset is `-2`, so stroke pixel 0 would sample fill pixel 2,
but the code samples fill coordinate 1 with `int` fields (the division truncates toward
zero) and a coordinate far outside the bitmap with `unsigned int` fields. -/
theorem centring_offset_fails_for_wider_fill :
    (0 : Int) - Int.fdiv ((4 : Int) - 7) 2 = 2 ∧
    fillCoord .signedInt 0 4 7 = 1 ∧
    fillCoord .unsignedInt 0 4 7 = -2147483646 := by
  decide

/-! ## Construction -/

theorem handleFreetypeError_zero (tbl : List (Int × String)) :
    handleFreetypeError tbl 0 = .ok () := by
  simp [handleFreetypeError]

theorem handleFreetypeError_nonzero (tbl : List (Int × String)) {e : FT_Error} (h : e ≠ 0) :
    ∃ msg, handleFreetypeError tbl e = .error (.runtime_error ("Freetype error: " ++ msg)) := by
  simp [handleFreetypeError, h]

/-- Claim C8: a font name that fontconfig resolves to no file makes the constructor throw
the font-not-found error with no FreeType call made; for a resolved font the constructor
throws a FreeType error exactly when `FT_Init_FreeType`, `FT_New_Face` or
`FT_Set_Char_Size` returns a non-zero code, and otherwise returns an object with 256
empty glyph slots. -/
theorem construction_failure {C : Type} (K : ColourOps C) (fc : FontConfig)
    (ft : FreeTypeSetup) (name : String) (fontSize horizontalDPI verticalDPI : Int)
    (outlineWidth : ℚ) :
    (getFontPath fc name = "" →
      newFontRenderer K fc ft name fontSize horizontalDPI verticalDPI outlineWidth =
        ([], .error (.runtime_error ("Couldn't find font: " ++ name)))) ∧
    (getFontPath fc name ≠ "" →
      ((∃ msg, (newFontRenderer K fc ft name fontSize horizontalDPI verticalDPI
          outlineWidth).2 = .error (.runtime_error ("Freetype error: " ++ msg))) ↔
        (ft.FT_Init_FreeType ≠ 0 ∨ ft.FT_New_Face (getFontPath fc name) ≠ 0 ∨
          ft.FT_Set_Char_Size 0 (fontSize * 64) horizontalDPI verticalDPI ≠ 0)) ∧
      ((ft.FT_Init_FreeType = 0 ∧ ft.FT_New_Face (getFontPath fc name) = 0 ∧
          ft.FT_Set_Char_Size 0 (fontSize * 64) horizontalDPI verticalDPI = 0) →
        ∃ r : FontRenderer C,
          (newFontRenderer K fc ft name fontSize horizontalDPI verticalDPI
            outlineWidth).2 = .ok r ∧ r.glyphs = List.replicate 256 none)) := by
  refine ⟨fun h => ?_, fun h => ⟨?_, ?_⟩⟩
  · simp [newFontRenderer, h]
  · by_cases h1 : ft.FT_Init_FreeType = 0
    · by_cases h2 : ft.FT_New_Face (getFontPath fc name) = 0
      · by_cases h3 : ft.FT_Set_Char_Size 0 (fontSize * 64) horizontalDPI verticalDPI = 0
        · simp [newFontRenderer, h, h1, h2, h3, handleFreetypeError]
        · simp [newFontRenderer, h, h1, h2, h3, handleFreetypeError]
      · simp [newFontRenderer, h, h1, h2, handleFreetypeError]
    · simp [newFontRenderer, h, h1, handleFreetypeError]
  · rintro ⟨h1, h2, h3⟩
    simp [newFontRenderer, h, h1, h2, h3, handleFreetypeError]

/-! ## The compositing loop -/

theorem compositePixel_eq {C : Type} (K : ColourOps C) (t : DimType) (fc oc : C)
    (mainBitmap outline : FT_Bitmap) (Y X : Nat) (cv : Canvas C) :
    compositePixel K t fc oc mainBitmap outline Y X cv =
      { finalColor := cv.finalColor.set (Y * outline.width + X)
          (pixelColour K t fc oc mainBitmap outline Y X)
        accesses := cv.accesses ++ pixelAccesses t mainBitmap outline Y X } := by
  simp only [compositePixel, pixelColour, pixelAccesses, baseAlphaAt, List.append_assoc]
  by_cases h : fillCoord t Y outline.rows mainBitmap.rows ≥ 0 ∧
      fillCoord t X outline.width mainBitmap.width ≥ 0 ∧
      fillCoord t Y outline.rows mainBitmap.rows < (mainBitmap.rows : Int) ∧
      fillCoord t X outline.width mainBitmap.width < (mainBitmap.width : Int)
  · simp [h]
  · simp [h]

/-- A fold of loop bodies over any list of columns. -/
theorem foldl_compositePixel {C : Type} (K : ColourOps C) (t : DimType) (fc oc : C)
    (mainBitmap outline : FT_Bitmap) (Y : Nat) (l : List Nat) (cv : Canvas C) :
    l.foldl (fun acc X => compositePixel K t fc oc mainBitmap outline Y X acc) cv =
      { finalColor := l.foldl (fun img X => img.set (Y * outline.width + X)
          (pixelColour K t fc oc mainBitmap outline Y X)) cv.finalColor
        accesses := cv.accesses ++ l.flatMap (pixelAccesses t mainBitmap outline Y) } := by
  induction l generalizing cv with
  | nil => simp
  | cons X l ih =>
    rw [List.foldl_cons, ih, compositePixel_eq]
    simp [List.append_assoc]

/-- A fold of rows over any list of row numbers. -/
theorem foldl_compositeRow {C : Type} (K : ColourOps C) (t : DimType) (fc oc : C)
    (mainBitmap outline : FT_Bitmap) (l : List Nat) (cv : Canvas C) :
    l.foldl (fun acc Y => compositeRow K t fc oc mainBitmap outline Y acc) cv =
      { finalColor := l.foldl (fun img Y => (List.range outline.width).foldl
          (fun img X => img.set (Y * outline.width + X)
            (pixelColour K t fc oc mainBitmap outline Y X)) img) cv.finalColor
        accesses := cv.accesses ++ l.flatMap (fun Y =>
          (List.range outline.width).flatMap (pixelAccesses t mainBitmap outline Y)) } := by
  induction l generalizing cv with
  | nil => simp
  | cons Y l ih =>
    rw [List.foldl_cons, ih, compositeRow, foldl_compositePixel]
    simp [List.append_assoc]

/-! ### Folds of `List.set` -/

theorem foldl_set_length {α β : Type} (f : β → Nat) (v : β → α) (l : List β) (img : List α) :
    (l.foldl (fun img p => img.set (f p) (v p)) img).length = img.length := by
  induction l generalizing img with
  | nil => rfl
  | cons p l ih => simp [List.foldl_cons, ih]

theorem foldl_set_getElem?_of_forall_ne {α β : Type} (f : β → Nat) (v : β → α) (l : List β)
    (img : List α) (j : Nat) (h : ∀ p ∈ l, f p ≠ j) :
    (l.foldl (fun img p => img.set (f p) (v p)) img)[j]? = img[j]? := by
  induction l generalizing img with
  | nil => rfl
  | cons p l ih =>
    rw [List.foldl_cons, ih _ (fun q hq => h q (List.mem_cons_of_mem _ hq))]
    exact List.getElem?_set_ne (h p (List.mem_cons_self _ _))

theorem foldl_set_getElem?_of_mem {α β : Type} (f : β → Nat) (v : β → α) (l : List β)
    (img : List α) (p : β) (hp : p ∈ l) (hlt : f p < img.length)
    (hinj : ∀ q ∈ l, f q = f p → q = p) :
    (l.foldl (fun img p => img.set (f p) (v p)) img)[f p]? = some (v p) := by
  induction l generalizing img with
  | nil => cases hp
  | cons a l ih =>
    rw [List.foldl_cons]
    by_cases hmem : p ∈ l
    · exact ih _ hmem (by simpa using hlt) (fun q hq => hinj q (List.mem_cons_of_mem _ hq))
    · have hpa : p = a := by
        rcases List.mem_cons.1 hp with h | h
        · exact h
        · exact absurd h hmem
      subst hpa
      rw [foldl_set_getElem?_of_forall_ne]
      · exact List.getElem?_set_self hlt
      · intro q hq hfq
        exact hmem (hinj q (List.mem_cons_of_mem _ hq) hfq ▸ hq)

theorem foldl_foldl_eq_foldl_pairs {α : Type} (g : α → Nat → Nat → α) (ys xs : List Nat)
    (a : α) :
    ys.foldl (fun acc Y => xs.foldl (fun acc X => g acc Y X) acc) a =
      (ys.flatMap fun Y => xs.map fun X => (Y, X)).foldl (fun acc p => g acc p.1 p.2) a := by
  induction ys generalizing a with
  | nil => rfl
  | cons Y ys ih =>
    simp only [List.foldl_cons, List.flatMap_cons, List.foldl_append, List.foldl_map]
    exact ih _

theorem mem_pairs {ys xs : List Nat} {p : Nat × Nat} :
    p ∈ (ys.flatMap fun Y => xs.map fun X => (Y, X)) ↔ p.1 ∈ ys ∧ p.2 ∈ xs := by
  rcases p with ⟨a, b⟩
  simp only [List.mem_flatMap, List.mem_map, Prod.mk.injEq]
  constructor
  · rintro ⟨Y, hY, X, hX, rfl, rfl⟩
    exact ⟨hY, hX⟩
  · rintro ⟨hY, hX⟩
    exact ⟨a, hY, b, hX, rfl, rfl⟩

/-- Row-major indices of pixels inside the image are distinct. -/
theorem rowMajor_inj {W Y X Y1 X1 : Nat} (hX : X < W) (hX1 : X1 < W)
    (h : Y1 * W + X1 = Y * W + X) : Y1 = Y ∧ X1 = X := by
  have hY : Y1 = Y := by
    rcases Nat.lt_trichotomy Y1 Y with hlt | heq | hgt
    · have : (Y1 + 1) * W ≤ Y * W := Nat.mul_le_mul_right W hlt
      rw [Nat.add_mul] at this
      omega
    · exact heq
    · have : (Y + 1) * W ≤ Y1 * W := Nat.mul_le_mul_right W hgt
      rw [Nat.add_mul] at this
      omega
  subst hY
  exact ⟨rfl, by omega⟩

theorem rowMajor_lt {W H Y X : Nat} (hX : X < W) (hY : Y < H) : Y * W + X < W * H := by
  have : (Y + 1) * W ≤ H * W := Nat.mul_le_mul_right W hY
  rw [Nat.add_mul, Nat.mul_comm H W] at this
  omega

/-! ### The composited image and the access log -/

theorem composite_eq {C : Type} (K : ColourOps C) (t : DimType) (fc oc : C)
    (mainBitmap outline : FT_Bitmap) :
    composite K t fc oc mainBitmap outline =
      { finalColor :=
          ((List.range outline.rows).flatMap fun Y =>
              (List.range outline.width).map fun X => (Y, X)).foldl
            (fun img p => img.set (p.1 * outline.width + p.2)
              (pixelColour K t fc oc mainBitmap outline p.1 p.2))
            (List.replicate (outline.width * outline.rows) K.default)
        accesses := (List.range outline.rows).flatMap fun Y =>
          (List.range outline.width).flatMap (pixelAccesses t mainBitmap outline Y) } := by
  rw [composite, foldl_compositeRow]
  simp only [List.nil_append]
  congr 1
  exact foldl_foldl_eq_foldl_pairs
    (fun (img : List C) (Y X : Nat) => img.set (Y * outline.width + X)
      (pixelColour K t fc oc mainBitmap outline Y X)) _ _ _

theorem composite_length {C : Type} (K : ColourOps C) (t : DimType) (fc oc : C)
    (mainBitmap outline : FT_Bitmap) :
    (composite K t fc oc mainBitmap outline).finalColor.length =
      outline.width * outline.rows := by
  rw [composite_eq]
  simp only
  rw [foldl_set_length (fun p : Nat × Nat => p.1 * outline.width + p.2)
    (fun p => pixelColour K t fc oc mainBitmap outline p.1 p.2)]
  simp

theorem composite_getElem? {C : Type} (K : ColourOps C) (t : DimType) (fc oc : C)
    (mainBitmap outline : FT_Bitmap) (X Y : Nat) (hX : X < outline.width)
    (hY : Y < outline.rows) :
    (composite K t fc oc mainBitmap outline).finalColor[Y * outline.width + X]? =
      some (pixelColour K t fc oc mainBitmap outline Y X) := by
  rw [composite_eq]
  simp only
  have key := foldl_set_getElem?_of_mem (fun p : Nat × Nat => p.1 * outline.width + p.2)
    (fun p => pixelColour K t fc oc mainBitmap outline p.1 p.2)
    ((List.range outline.rows).flatMap fun Y => (List.range outline.width).map fun X => (Y, X))
    (List.replicate (outline.width * outline.rows) K.default) (Y, X)
    (mem_pairs.2 ⟨List.mem_range.2 hY, List.mem_range.2 hX⟩)
    (by simpa using rowMajor_lt hX hY)
    (by
      rintro ⟨Y1, X1⟩ hq hEq
      have hX1 : X1 < outline.width := List.mem_range.1 (mem_pairs.1 hq).2
      obtain ⟨h1, h2⟩ := rowMajor_inj hX hX1 hEq
      exact Prod.ext h1 h2)
  exact key

/-- With the fill bitmap no larger than the stroke bitmap, `baseAlpha` is the fill
coverage at the centred coordinate inside the footprint and 0 outside. -/
theorem baseAlphaAt_of_contained (t : DimType) (mainBitmap outline : FT_Bitmap) (X Y : Nat)
    (hw : mainBitmap.width ≤ outline.width) (hh : mainBitmap.rows ≤ outline.rows)
    (hX : X < outline.width) (hY : Y < outline.rows)
    (hW : outline.width < 2 ^ 31) (hH : outline.rows < 2 ^ 31) :
    baseAlphaAt t mainBitmap outline Y X =
      if (outline.width - mainBitmap.width) / 2 ≤ X ∧
          X < (outline.width - mainBitmap.width) / 2 + mainBitmap.width ∧
          (outline.rows - mainBitmap.rows) / 2 ≤ Y ∧
          Y < (outline.rows - mainBitmap.rows) / 2 + mainBitmap.rows then
        mainBitmap.buffer.getD
          ((X - (outline.width - mainBitmap.width) / 2) +
            mainBitmap.width * (Y - (outline.rows - mainBitmap.rows) / 2)) 0
      else 0 := by
  unfold baseAlphaAt
  simp only [fillCoord_of_le t X _ _ hw hX hW, fillCoord_of_le t Y _ _ hh hY hH]
  rw [if_congr (inRange_iff_footprint X Y outline.width outline.rows mainBitmap.width
    mainBitmap.rows hw hh) rfl rfl]
  split
  · next hfp =>
    congr 1
    have e1 : ((X : Int) - (((outline.width - mainBitmap.width) / 2 : Nat) : Int)) =
        ((X - (outline.width - mainBitmap.width) / 2 : Nat) : Int) := by omega
    have e2 : ((Y : Int) - (((outline.rows - mainBitmap.rows) / 2 : Nat) : Int)) =
        ((Y - (outline.rows - mainBitmap.rows) / 2 : Nat) : Int) := by omega
    rw [e1, e2]
    norm_cast
  · rfl

theorem writtenIndices_append (l1 l2 : List Access) :
    writtenIndices (l1 ++ l2) = writtenIndices l1 ++ writtenIndices l2 := by
  simp [writtenIndices, List.filterMap_append]

theorem writtenIndices_flatMap {β : Type} (l : List β) (f : β → List Access) :
    writtenIndices (l.flatMap f) = l.flatMap fun b => writtenIndices (f b) := by
  induction l with
  | nil => rfl
  | cons b l ih => simp [List.flatMap_cons, writtenIndices_append, ih]

theorem writtenIndices_pixelAccesses (t : DimType) (mainBitmap outline : FT_Bitmap)
    (Y X : Nat) :
    writtenIndices (pixelAccesses t mainBitmap outline Y X) = [Y * outline.width + X] := by
  unfold pixelAccesses
  simp only [writtenIndices_append]
  split <;> simp [writtenIndices]

theorem flatMap_singleton_eq_map {β γ : Type} (l : List β) (f : β → γ) :
    (l.flatMap fun b => [f b]) = l.map f := by
  induction l with
  | nil => rfl
  | cons b l ih => simp [List.flatMap_cons, ih]

theorem rowMajor_range (W H : Nat) :
    ((List.range H).flatMap fun Y => (List.range W).map fun X => Y * W + X) =
      List.range (W * H) := by
  induction H with
  | zero => simp
  | succ H ih =>
    rw [List.range_succ, List.flatMap_append, ih]
    simp only [List.flatMap_cons, List.flatMap_nil, List.append_nil]
    rw [Nat.mul_succ, List.range_add, Nat.mul_comm W H]

theorem writtenIndices_composite {C : Type} (K : ColourOps C) (t : DimType) (fc oc : C)
    (mainBitmap outline : FT_Bitmap) :
    writtenIndices (composite K t fc oc mainBitmap outline).accesses =
      List.range (outline.width * outline.rows) := by
  rw [composite_eq]
  simp only
  rw [writtenIndices_flatMap]
  simp only [writtenIndices_flatMap, writtenIndices_pixelAccesses, flatMap_singleton_eq_map]
  exact rowMajor_range outline.width outline.rows

theorem mem_composite_accesses {C : Type} (K : ColourOps C) (t : DimType) (fc oc : C)
    (mainBitmap outline : FT_Bitmap) (a : Access) :
    a ∈ (composite K t fc oc mainBitmap outline).accesses ↔
      ∃ Y X, Y < outline.rows ∧ X < outline.width ∧
        a ∈ pixelAccesses t mainBitmap outline Y X := by
  rw [composite_eq]
  simp only [List.mem_flatMap, List.mem_range]
  constructor
  · rintro ⟨Y, hY, X, hX, ha⟩
    exact ⟨Y, X, hY, hX, ha⟩
  · rintro ⟨Y, X, hY, hX, ha⟩
    exact ⟨Y, hY, X, hX, ha⟩

/-! ## `createGlyph` -/

theorem createGlyph_of_load_error {C : Type} (K : ColourOps C) (R : Rasterizer)
    (self : FontRenderer C) (c : Int)
    (h : (R.FT_Load_Glyph (R.FT_Get_Char_Index (toUnsignedLong c)) .FT_LOAD_RENDER).1 ≠ 0) :
    createGlyph K R self c = none := by
  simp [createGlyph, h]

theorem createGlyph_of_empty_bitmap {C : Type} (K : ColourOps C) (R : Rasterizer)
    (self : FontRenderer C) (c : Int)
    (h : (R.FT_Load_Glyph (R.FT_Get_Char_Index (toUnsignedLong c)) .FT_LOAD_RENDER).1 = 0)
    (he : (R.FT_Load_Glyph (R.FT_Get_Char_Index (toUnsignedLong c))
        .FT_LOAD_RENDER).2.bitmap.width = 0 ∨
      (R.FT_Load_Glyph (R.FT_Get_Char_Index (toUnsignedLong c))
        .FT_LOAD_RENDER).2.bitmap.rows = 0) :
    createGlyph K R self c =
      some { vertexBuffer := none
             advance := (R.FT_Load_Glyph (R.FT_Get_Char_Index (toUnsignedLong c))
               .FT_LOAD_RENDER).2.advance
             metrics := (R.FT_Load_Glyph (R.FT_Get_Char_Index (toUnsignedLong c))
               .FT_LOAD_RENDER).2.metrics } := by
  simp [createGlyph, h, he]

theorem createGlyph_of_composited {C : Type} (K : ColourOps C) (R : Rasterizer)
    (self : FontRenderer C) (c : Int) (slot1 slot2 : FT_GlyphSlot) (outline : FT_Bitmap)
    (hrender : R.FT_Load_Glyph (R.FT_Get_Char_Index (toUnsignedLong c)) .FT_LOAD_RENDER =
      (0, slot1))
    (hreload : R.FT_Load_Glyph (R.FT_Get_Char_Index (toUnsignedLong c)) .FT_LOAD_NO_BITMAP =
      (0, slot2))
    (hstroke : R.strokeToBitmap slot2 (toInt64ths self.outlineWidth) = outline)
    (hfill : 0 < slot1.bitmap.width ∧ 0 < slot1.bitmap.rows)
    (hpos : 0 < outline.width ∧ 0 < outline.rows) :
    createGlyph K R self c =
      some { vertexBuffer := some
               { vertices := quadVertices
                 indices := quadIndices
                 width := outline.width
                 height := outline.rows
                 pixels := (composite K R.dimType self.fontColour self.fontOutlineColour
                   slot1.bitmap outline).finalColor
                 mode := GL_TRIANGLES }
             advance := slot2.advance
             metrics := slot2.metrics } := by
  have h1 : ¬ (slot1.bitmap.width = 0 ∨ slot1.bitmap.rows = 0) := by omega
  have h2 : ¬ (outline.rows = 0 ∨ outline.width = 0) := by omega
  simp [createGlyph, hrender, hreload, hstroke, h1, h2]

/-- The result of `createGlyph` depends on the object only through the outline width
and the two colours. -/
theorem createGlyph_congr {C : Type} (K : ColourOps C) (R : Rasterizer)
    (r1 r2 : FontRenderer C) (c : Int) (h1 : r1.outlineWidth = r2.outlineWidth)
    (h2 : r1.fontColour = r2.fontColour) (h3 : r1.fontOutlineColour = r2.fontOutlineColour) :
    createGlyph K R r1 c = createGlyph K R r2 c := by
  simp [createGlyph, h1, h2, h3]

/-- The result of `createGlyph` depends on the code only through its conversion to
`FT_ULong`. -/
theorem createGlyph_congr_code {C : Type} (K : ColourOps C) (R : Rasterizer)
    (r : FontRenderer C) (c d : Int) (h : toUnsignedLong c = toUnsignedLong d) :
    createGlyph K R r c = createGlyph K R r d := by
  simp [createGlyph, h]

/-- Claim C2: when the glyph renders to a non-empty fill bitmap that is no larger than
the (non-empty) stroke bitmap, `createGlyph` returns geometry whose image has the stroke
bitmap's dimensions and `W * H` pixels, and the pixel of every stroke position `(X, Y)`
is (white at fill alpha) * fill colour + (white at stroke alpha) * outline colour, where
the fill alpha is the fill coverage at the centred coordinate inside the footprint of
the fill bitmap and 0 outside it. -/
theorem compositing_correctness {C : Type} (K : ColourOps C) (R : Rasterizer)
    (self : FontRenderer C) (c : Int) (slot1 slot2 : FT_GlyphSlot) (outline : FT_Bitmap)
    (hrender : R.FT_Load_Glyph (R.FT_Get_Char_Index (toUnsignedLong c)) .FT_LOAD_RENDER =
      (0, slot1))
    (hreload : R.FT_Load_Glyph (R.FT_Get_Char_Index (toUnsignedLong c)) .FT_LOAD_NO_BITMAP =
      (0, slot2))
    (hstroke : R.strokeToBitmap slot2 (toInt64ths self.outlineWidth) = outline)
    (hfill : 0 < slot1.bitmap.width ∧ 0 < slot1.bitmap.rows)
    (hpos : 0 < outline.width ∧ 0 < outline.rows)
    (hcontained : slot1.bitmap.width ≤ outline.width ∧ slot1.bitmap.rows ≤ outline.rows)
    (hint : outline.width < 2 ^ 31 ∧ outline.rows < 2 ^ 31) :
    ∃ vb : VertexBuffer C,
      createGlyph K R self c =
        some { vertexBuffer := some vb, advance := slot2.advance, metrics := slot2.metrics } ∧
      vb.width = outline.width ∧ vb.height = outline.rows ∧
      vb.pixels.length = outline.width * outline.rows ∧
      ∀ X Y : Nat, X < outline.width → Y < outline.rows →
        vb.pixels[Y * outline.width + X]? =
          some (K.add
            (K.mul (K.rgba 255 255 255
              (if (outline.width - slot1.bitmap.width) / 2 ≤ X ∧
                  X < (outline.width - slot1.bitmap.width) / 2 + slot1.bitmap.width ∧
                  (outline.rows - slot1.bitmap.rows) / 2 ≤ Y ∧
                  Y < (outline.rows - slot1.bitmap.rows) / 2 + slot1.bitmap.rows then
                slot1.bitmap.buffer.getD
                  ((X - (outline.width - slot1.bitmap.width) / 2) +
                    slot1.bitmap.width * (Y - (outline.rows - slot1.bitmap.rows) / 2)) 0
              else 0)) self.fontColour)
            (K.mul (K.rgba 255 255 255 (outline.buffer.getD (X + outline.width * Y) 0))
              self.fontOutlineColour)) := by
  refine ⟨_, createGlyph_of_composited K R self c slot1 slot2 outline hrender hreload hstroke
    hfill hpos, rfl, rfl, composite_length _ _ _ _ _ _, ?_⟩
  intro X Y hX hY
  simp only
  rw [composite_getElem? K R.dimType _ _ slot1.bitmap outline X Y hX hY, pixelColour,
    baseAlphaAt_of_contained R.dimType slot1.bitmap outline X Y hcontained.1 hcontained.2 hX hY
      hint.1 hint.2]
  rfl

theorem compositing_correctness_witness :
    ∃ vb : VertexBuffer (Nat × Nat × Nat × Nat),
      createGlyph rgbaTuples (demoFace .unsignedInt) demoRenderer 65 =
        some { vertexBuffer := some vb, advance := (boxSlot 1 1 ⟨640, 0⟩).advance,
               metrics := (boxSlot 1 1 ⟨640, 0⟩).metrics } ∧
      vb.width = 3 ∧ vb.height = 3 ∧ vb.pixels.length = 3 * 3 ∧
      ∀ X Y : Nat, X < 3 → Y < 3 →
        vb.pixels[Y * 3 + X]? =
          some (rgbaTuples.add
            (rgbaTuples.mul (rgbaTuples.rgba 255 255 255
              (if (3 - 1) / 2 ≤ X ∧ X < (3 - 1) / 2 + 1 ∧ (3 - 1) / 2 ≤ Y ∧
                  Y < (3 - 1) / 2 + 1 then
                [255].getD ((X - (3 - 1) / 2) + 1 * (Y - (3 - 1) / 2)) 0
              else 0)) demoRenderer.fontColour)
            (rgbaTuples.mul (rgbaTuples.rgba 255 255 255
              ((List.replicate 9 128).getD (X + 3 * Y) 0)) demoRenderer.fontOutlineColour)) :=
  compositing_correctness rgbaTuples (demoFace .unsignedInt) demoRenderer 65
    (boxSlot 1 1 ⟨640, 0⟩) (boxSlot 1 1 ⟨640, 0⟩)
    { rows := 3, width := 3, buffer := List.replicate 9 128 }
    rfl rfl rfl (by decide) (by decide) (by decide) (by decide)

/-- Claim C10: for all stroke and fill dimensions (in particular all positive ones) the
compositing loop reads the fill buffer only at coordinates that passed the range test,
at index `x + w * y` with `0 <= index < w * h`; it reads the stroke buffer and writes
the image only at indices below `W * H`; and the indices written are exactly
`0, ..., W * H - 1`, each once (in increasing order), into an image of `W * H` pixels. -/
theorem compositing_bounds {C : Type} (K : ColourOps C) (t : DimType) (fc oc : C)
    (mainBitmap outline : FT_Bitmap) :
    (∀ x y i : Int,
      Access.fillRead x y i ∈ (composite K t fc oc mainBitmap outline).accesses →
        0 ≤ x ∧ x < (mainBitmap.width : Int) ∧ 0 ≤ y ∧ y < (mainBitmap.rows : Int) ∧
        i = x + (mainBitmap.width : Int) * y ∧ 0 ≤ i ∧
        i < (mainBitmap.width : Int) * (mainBitmap.rows : Int)) ∧
    (∀ i : Nat, Access.strokeRead i ∈ (composite K t fc oc mainBitmap outline).accesses →
      i < outline.width * outline.rows) ∧
    (∀ i : Nat, Access.imageWrite i ∈ (composite K t fc oc mainBitmap outline).accesses →
      i < outline.width * outline.rows) ∧
    writtenIndices (composite K t fc oc mainBitmap outline).accesses =
      List.range (outline.width * outline.rows) ∧
    (∀ i : Nat, i < outline.width * outline.rows →
      (composite K t fc oc mainBitmap outline).accesses.count (Access.imageWrite i) = 1) ∧
    (composite K t fc oc mainBitmap outline).finalColor.length =
      outline.width * outline.rows := by
  refine ⟨?_, ?_, ?_, writtenIndices_composite K t fc oc mainBitmap outline, ?_,
    composite_length K t fc oc mainBitmap outline⟩
  · intro x y i hmem
    obtain ⟨Y, X, -, -, ha⟩ := (mem_composite_accesses K t fc oc mainBitmap outline _).1 hmem
    unfold pixelAccesses at ha
    simp only [List.mem_append, List.mem_cons, List.mem_singleton, List.not_mem_nil,
      or_false] at ha
    rcases ha with ha | ha | ha
    · split at ha
      · next hg =>
        simp only [List.mem_singleton, Access.fillRead.injEq] at ha
        obtain ⟨rfl, rfl, rfl⟩ := ha
        obtain ⟨hy0, hx0, hy1, hx1⟩ := hg
        refine ⟨hx0, hx1, hy0, hy1, rfl, ?_, ?_⟩
        · have := Int.mul_nonneg (Int.ofNat_nonneg mainBitmap.width) hy0
          omega
        · have h1 : (mainBitmap.width : Int) * (fillCoord t Y outline.rows mainBitmap.rows + 1) ≤
              (mainBitmap.width : Int) * (mainBitmap.rows : Int) :=
            Int.mul_le_mul_of_nonneg_left (by omega) (Int.ofNat_nonneg _)
          rw [Int.mul_add] at h1
          omega
      · simp at ha
    · cases ha
    · cases ha
  · intro i hmem
    obtain ⟨Y, X, hY, hX, ha⟩ := (mem_composite_accesses K t fc oc mainBitmap outline _).1 hmem
    unfold pixelAccesses at ha
    have : i = X + outline.width * Y := by
      simp only [List.mem_append, List.mem_cons, List.mem_singleton, List.not_mem_nil,
        or_false] at ha
      rcases ha with ha | ha | ha
      · split at ha <;> simp at ha
      · simpa using ha
      · cases ha
    have hlt := rowMajor_lt hX hY
    rw [this, Nat.mul_comm outline.width Y]
    omega
  · intro i hmem
    obtain ⟨Y, X, hY, hX, ha⟩ := (mem_composite_accesses K t fc oc mainBitmap outline _).1 hmem
    unfold pixelAccesses at ha
    have : i = Y * outline.width + X := by
      simp only [List.mem_append, List.mem_cons, List.mem_singleton, List.not_mem_nil,
        or_false] at ha
      rcases ha with ha | ha | ha
      · split at ha <;> simp at ha
      · cases ha
      · simpa using ha
    rw [this]
    exact rowMajor_lt hX hY
  · intro i hi
    have hcount : ∀ l : List Access,
        l.count (Access.imageWrite i) = (writtenIndices l).count i := by
      intro l
      induction l with
      | nil => rfl
      | cons a l ih =>
        cases a with
        | fillRead x y j => simpa [writtenIndices, List.count_cons] using ih
        | strokeRead j => simpa [writtenIndices, List.count_cons] using ih
        | imageWrite j =>
          simp only [writtenIndices, List.count_cons, List.filterMap_cons] at ih ⊢
          simp only [beq_iff_eq, Access.imageWrite.injEq]
          omega
    rw [hcount, writtenIndices_composite]
    exact List.count_eq_one_of_mem (List.nodup_range _) (List.mem_range.2 hi)

/-! ## `getGlyph` -/

theorem getGlyph_unresolved {C : Type} (K : ColourOps C) (R : Rasterizer)
    (r : FontRenderer C) (c : Int) (h : r.glyphs[toUnsignedLong c]? = some none) :
    getGlyph K R r c =
      some (createGlyph K R r c,
        { r with
          glyphs := r.glyphs.set (toUnsignedLong c) (some (Optional.mk (createGlyph K R r c)))
          created := r.created ++ [c]
          lookups := r.lookups ++ [c] }) := by
  simp [getGlyph, h]

theorem getGlyph_resolved {C : Type} (K : ColourOps C) (R : Rasterizer)
    (r : FontRenderer C) (c : Int) (s : Optional (Glyph C))
    (h : r.glyphs[toUnsignedLong c]? = some (some s)) :
    getGlyph K R r c = some (s.get, { r with lookups := r.lookups ++ [c] }) := by
  simp [getGlyph, h]

theorem getGlyph_outside {C : Type} (K : ColourOps C) (R : Rasterizer)
    (r : FontRenderer C) (c : Int) (h : r.glyphs.length ≤ toUnsignedLong c) :
    getGlyph K R r c = none := by
  have : r.glyphs[toUnsignedLong c]? = none := List.getElem?_eq_none h
  simp [getGlyph, this]

/-- What one successful `getGlyph` does to the object. -/
theorem getGlyph_effect {C : Type} (K : ColourOps C) (R : Rasterizer)
    (r r1 : FontRenderer C) (c : Int) (g : Option (Glyph C))
    (h : getGlyph K R r c = some (g, r1)) :
    SameSettings r r1 ∧ r1.glyphs.length = r.glyphs.length ∧
    r1.glyphs[toUnsignedLong c]? = some (some (Optional.mk g)) ∧
    (∀ j : Nat, j ≠ toUnsignedLong c → r1.glyphs[j]? = r.glyphs[j]?) ∧
    r1.lookups = r.lookups ++ [c] ∧
    ((r.glyphs[toUnsignedLong c]? = some none ∧ g = createGlyph K R r c ∧
        r1.created = r.created ++ [c]) ∨
      (r.glyphs[toUnsignedLong c]? = some (some (Optional.mk g)) ∧ r1.glyphs = r.glyphs ∧
        r1.created = r.created)) := by
  rcases hslot : r.glyphs[toUnsignedLong c]? with _ | _ | s
  · simp [getGlyph, hslot] at h
  · rw [getGlyph_unresolved K R r c hslot] at h
    simp only [Option.some.injEq, Prod.mk.injEq] at h
    obtain ⟨rfl, rfl⟩ := h
    have hlt : toUnsignedLong c < r.glyphs.length := by
      by_contra hge
      rw [List.getElem?_eq_none (by omega)] at hslot
      cases hslot
    refine ⟨⟨rfl, rfl, rfl, rfl, rfl, rfl, rfl, rfl, rfl⟩, by simp, ?_, ?_, rfl,
      Or.inl ⟨rfl, rfl, rfl⟩⟩
    · simp [List.getElem?_set_self hlt]
    · intro j hj
      simp [List.getElem?_set_ne (Ne.symm hj)]
  · rw [getGlyph_resolved K R r c s hslot] at h
    simp only [Option.some.injEq, Prod.mk.injEq] at h
    obtain ⟨rfl, rfl⟩ := h
    exact ⟨⟨rfl, rfl, rfl, rfl, rfl, rfl, rfl, rfl, rfl⟩, rfl, hslot, fun _ _ => rfl, rfl,
      Or.inr ⟨rfl, rfl, rfl⟩⟩

theorem resolvedGlyph_eq_some {C : Type} (K : ColourOps C) (R : Rasterizer)
    (r : FontRenderer C) (c : Int) (g : Option (Glyph C)) :
    resolvedGlyph K R r c = some g ↔ ∃ r1, getGlyph K R r c = some (g, r1) := by
  unfold resolvedGlyph
  constructor
  · intro h
    rcases hq : getGlyph K R r c with _ | ⟨g1, r1⟩
    · simp [hq] at h
    · simp [hq] at h
      exact ⟨r1, by rw [h]⟩
  · rintro ⟨r1, h⟩
    simp [h]

/-- What `getGlyph` returns depends on the state only through the table, the outline
width and the colours. -/
theorem resolvedGlyph_congr {C : Type} (K : ColourOps C) (R : Rasterizer)
    (r r1 : FontRenderer C) (c : Int) (hs : SameSettings r r1)
    (hslot : r1.glyphs[toUnsignedLong c]? = r.glyphs[toUnsignedLong c]?) :
    resolvedGlyph K R r1 c = resolvedGlyph K R r c := by
  obtain ⟨-, h2, -, -, -, -, -, h8, h9⟩ := hs
  have hc : createGlyph K R r1 c = createGlyph K R r c := createGlyph_congr K R r1 r c h2 h8 h9
  unfold resolvedGlyph getGlyph
  rw [hslot]
  rcases r.glyphs[toUnsignedLong c]? with _ | _ | s
  · rfl
  · simp [hc]
  · rfl

/-- Memoization step: after a successful `getGlyph`, every code is answered as before. -/
theorem getGlyph_evolves {C : Type} (K : ColourOps C) (R : Rasterizer)
    (r r1 : FontRenderer C) (d : Int) (g : Option (Glyph C))
    (h : getGlyph K R r d = some (g, r1)) : Evolves K R r r1 := by
  obtain ⟨hs, hlen, hnew, hother, -, hcase⟩ := getGlyph_effect K R r r1 d g h
  refine ⟨hs, hlen, fun c => ?_⟩
  by_cases hcd : toUnsignedLong c = toUnsignedLong d
  · rcases hcase with ⟨hold, hg, -⟩ | ⟨hold, hgl, -⟩
    · obtain ⟨-, h2, -, -, -, -, -, h8, h9⟩ := hs
      unfold resolvedGlyph getGlyph
      rw [hcd, hnew, hold]
      simp only [Option.map_some']
      rw [hg, createGlyph_congr_code K R r c d hcd]
    · exact resolvedGlyph_congr K R r r1 c hs (by rw [hgl])
  · exact resolvedGlyph_congr K R r r1 c hs (hother _ hcd)

theorem sameSettings_refl {C : Type} (r : FontRenderer C) : SameSettings r r :=
  ⟨rfl, rfl, rfl, rfl, rfl, rfl, rfl, rfl, rfl⟩

theorem sameSettings_trans {C : Type} {r1 r2 r3 : FontRenderer C} (h12 : SameSettings r1 r2)
    (h23 : SameSettings r2 r3) : SameSettings r1 r3 := by
  obtain ⟨a1, a2, a3, a4, a5, a6, a7, a8, a9⟩ := h12
  obtain ⟨b1, b2, b3, b4, b5, b6, b7, b8, b9⟩ := h23
  exact ⟨b1.trans a1, b2.trans a2, b3.trans a3, b4.trans a4, b5.trans a5, b6.trans a6,
    b7.trans a7, b8.trans a8, b9.trans a9⟩

theorem evolves_refl {C : Type} (K : ColourOps C) (R : Rasterizer) (r : FontRenderer C) :
    Evolves K R r r :=
  ⟨sameSettings_refl r, rfl, fun _ => rfl⟩

theorem evolves_trans {C : Type} {K : ColourOps C} {R : Rasterizer} {r1 r2 r3 : FontRenderer C}
    (h12 : Evolves K R r1 r2) (h23 : Evolves K R r2 r3) : Evolves K R r1 r3 :=
  ⟨sameSettings_trans h12.1 h23.1, h23.2.1.trans h12.2.1, fun c => (h23.2.2 c).trans (h12.2.2 c)⟩

/-! ## The loop of `render` -/

theorem charOfByte_eq_ten_iff (b : Byte) : charOfByte b = 10 ↔ b = 10 := by
  unfold charOfByte
  constructor
  · intro h
    apply Fin.ext
    split at h
    · have : ((10 : Byte) : Nat) = 10 := rfl
      omega
    · have := b.isLt
      omega
  · rintro rfl
    decide

theorem renderChar_newline {C : Type} (K : ColourOps C) (R : Rasterizer) (width height : Int)
    (st : RenderState C) :
    renderChar K R width height st 10 =
      some { st with
        x := wrapInt32 (st.self.textPositionX * 64)
        y := wrapInt32 (st.y - (st.self.lineHeight + toInt64ths st.self.textSpacingY)) } := by
  have : charOfByte 10 = 10 := by decide
  simp [renderChar, this]

theorem renderChar_glyph {C : Type} (K : ColourOps C) (R : Rasterizer) (width height : Int)
    (st : RenderState C) (b : Byte) (g : Glyph C) (hb : charOfByte b ≠ 10)
    (hg : resolvedGlyph K R st.self (charOfByte b) = some (some g)) :
    ∃ r1, getGlyph K R st.self (charOfByte b) = some (some g, r1) ∧
      renderChar K R width height st b =
        some { x := wrapInt32 (st.x + (g.advance.x + toInt64ths st.self.textSpacingX))
               y := wrapInt32 (st.y - g.advance.y)
               self := r1
               draws := st.draws ++ glyphDraws g st.x st.y width height } := by
  obtain ⟨r1, hr1⟩ := (resolvedGlyph_eq_some K R st.self _ _).1 hg
  refine ⟨r1, hr1, ?_⟩
  have hs := (getGlyph_effect K R st.self r1 _ _ hr1).1
  obtain ⟨-, -, h3, -⟩ := hs
  unfold renderChar
  simp only [hb, if_false, hr1, glyphDraws, h3]
  rcases g.vertexBuffer with _ | vb <;> simp

theorem renderChar_absent {C : Type} (K : ColourOps C) (R : Rasterizer) (width height : Int)
    (st : RenderState C) (b : Byte) (hb : charOfByte b ≠ 10)
    (hg : resolvedGlyph K R st.self (charOfByte b) = some none) :
    ∃ r1, getGlyph K R st.self (charOfByte b) = some (none, r1) ∧
      renderChar K R width height st b = some { st with self := r1 } := by
  obtain ⟨r1, hr1⟩ := (resolvedGlyph_eq_some K R st.self _ _).1 hg
  refine ⟨r1, hr1, ?_⟩
  unfold renderChar
  simp only [hb, if_false, hr1]

theorem renderChar_evolves {C : Type} (K : ColourOps C) (R : Rasterizer) (width height : Int)
    (st st1 : RenderState C) (b : Byte) (h : renderChar K R width height st b = some st1) :
    Evolves K R st.self st1.self := by
  by_cases hb : charOfByte b = 10
  · rw [(charOfByte_eq_ten_iff b).1 hb, renderChar_newline] at h
    cases h
    exact evolves_refl K R _
  · unfold renderChar at h
    simp only [hb, if_false] at h
    rcases hq : getGlyph K R st.self (charOfByte b) with _ | ⟨g, r1⟩
    · simp [hq] at h
    · have hev := getGlyph_evolves K R st.self r1 _ g hq
      rcases g with _ | g
      · simp only [hq, Option.some.injEq] at h
        subst h
        exact hev
      · simp only [hq, Option.some.injEq] at h
        subst h
        exact hev

theorem renderLoop_evolves {C : Type} (K : ColourOps C) (R : Rasterizer) (width height : Int)
    (str : List Byte) (st st1 : RenderState C)
    (h : renderLoop K R width height str st = some st1) : Evolves K R st.self st1.self := by
  induction str generalizing st with
  | nil =>
    simp only [renderLoop, Option.some.injEq] at h
    subst h
    exact evolves_refl K R _
  | cons b rest ih =>
    unfold renderLoop at h
    rcases hq : renderChar K R width height st b with _ | st2
    · simp [hq] at h
    · simp only [hq] at h
      exact evolves_trans (renderChar_evolves K R width height st st2 b hq) (ih st2 h)

theorem renderLoop_append {C : Type} (K : ColourOps C) (R : Rasterizer) (width height : Int)
    (s1 s2 : List Byte) (st : RenderState C) :
    renderLoop K R width height (s1 ++ s2) st =
      (renderLoop K R width height s1 st).bind (renderLoop K R width height s2) := by
  induction s1 generalizing st with
  | nil => rfl
  | cons b rest ih =>
    simp only [List.cons_append, renderLoop]
    rcases renderChar K R width height st b with _ | st2
    · rfl
    · exact ih st2

/-- The loop over a run of characters that are no newlines and resolve to glyphs: the
pen is the sum of the advances and spacings, stored as `int`. -/
theorem renderLoop_glyphs {C : Type} (K : ColourOps C) (R : Rasterizer) (width height : Int)
    (r : FontRenderer C) (str : List Byte) (gs : List (Glyph C))
    (hstr : List.Forall₂ (fun b g => charOfByte b ≠ 10 ∧
      resolvedGlyph K R r (charOfByte b) = some (some g)) str gs)
    (st : RenderState C) (hst : Evolves K R r st.self) (hx0 : IsInt32 st.x)
    (hy0 : IsInt32 st.y) :
    ∃ st1, renderLoop K R width height str st = some st1 ∧
      st1.x = wrapInt32
        (st.x + (gs.map fun g => g.advance.x + toInt64ths r.textSpacingX).sum) ∧
      st1.y = wrapInt32 (st.y - (gs.map fun g => g.advance.y).sum) ∧
      st1.draws.map (·.vertexBuffer) =
        st.draws.map (·.vertexBuffer) ++ gs.filterMap (·.vertexBuffer) ∧
      Evolves K R r st1.self := by
  induction hstr generalizing st with
  | nil =>
    exact ⟨st, rfl, by simp [wrapInt32_of_isInt32 hx0], by simp [wrapInt32_of_isInt32 hy0],
      by simp, hst⟩
  | @cons b g str gs hbg _ ih =>
    obtain ⟨hb, hg⟩ := hbg
    have hg1 : resolvedGlyph K R st.self (charOfByte b) = some (some g) := by
      rw [hst.2.2]
      exact hg
    obtain ⟨r1, hr1, hstep⟩ := renderChar_glyph K R width height st b g hb hg1
    have hev : Evolves K R r r1 := evolves_trans hst (getGlyph_evolves K R st.self r1 _ _ hr1)
    obtain ⟨st1, hloop, hx, hy, hd, hev1⟩ := ih
      (RenderState.mk (wrapInt32 (st.x + (g.advance.x + toInt64ths st.self.textSpacingX)))
        (wrapInt32 (st.y - g.advance.y)) r1
        (st.draws ++ glyphDraws g st.x st.y width height))
      hev (wrapInt32_isInt32 _) (wrapInt32_isInt32 _)
    refine ⟨st1, ?_, ?_, ?_, ?_, hev1⟩
    · simp only [renderLoop, hstep]
      exact hloop
    · rw [hx]
      have : st.self.textSpacingX = r.textSpacingX := hst.1.2.2.1
      simp only [List.map_cons, List.sum_cons, this, wrapInt32_add_left]
      congr 1
      ring
    · rw [hy]
      simp only [List.map_cons, List.sum_cons, wrapInt32_sub_left]
      congr 1
      ring
    · rw [hd]
      simp only [List.map_append, List.filterMap_cons, glyphDraws]
      rcases g.vertexBuffer with _ | vb <;> simp

/-! ## Layout -/

theorem renderStart_of_inRange {C : Type} (r : FontRenderer C) (h : OriginInRange r) :
    (renderStart r).x = r.textPositionX * 64 ∧
    (renderStart r).y = -(r.textPositionY * 64) - r.lineHeight := by
  obtain ⟨-, h2, -, -, h5⟩ := h
  exact ⟨wrapInt32_of_isInt32 h2, wrapInt32_of_isInt32 h5⟩

/-- Claim C7, as the code has it, for runs in which the `int` computations stay in range
(the origin of lines 120-121, the conversion `(int) (spacingX * 64)` and the pen before
each of the first `k` characters): every `render` call starts from the pen origin
`(positionX * 64, -(positionY * 64) - lineHeight)`, whatever `render` calls came before;
for a newline-free string whose characters all resolve to a glyph the pen before the
`k`-th character is `(x0 + sum (advance.x + trunc (spacingX * 64)), y0 - sum advance.y)`
over the earlier glyphs, with or without geometry, where `trunc` rounds toward zero; and
the draw calls issued are those of the glyphs with geometry, in string order. -/
theorem pen_advance {C : Type} (K : ColourOps C) (R : Rasterizer) (r : FontRenderer C)
    (width height : Int) (str : List Byte) (gs : List (Glyph C))
    (hstr : List.Forall₂ (fun b g => charOfByte b ≠ 10 ∧
      resolvedGlyph K R r (charOfByte b) = some (some g)) str gs) (k : Nat)
    (horigin : OriginInRange r) (hspacing : IsInt32 (truncTimes64 r.textSpacingX))
    (hpen : ∀ j, j ≤ k →
      IsInt32 (r.textPositionX * 64 +
        ((gs.take j).map fun g => g.advance.x + truncTimes64 r.textSpacingX).sum) ∧
      IsInt32 (-(r.textPositionY * 64) - r.lineHeight -
        ((gs.take j).map fun g => g.advance.y).sum)) :
    (∀ (w0 h0 : Int) (s0 : List Byte) (st0 : RenderState C),
      render K R r w0 h0 s0 = some st0 →
        (renderStart st0.self).x = r.textPositionX * 64 ∧
        (renderStart st0.self).y = -(r.textPositionY * 64) - r.lineHeight) ∧
    ∃ st, renderLoop K R width height (str.take k) (renderStart r) = some st ∧
      st.x = r.textPositionX * 64 +
        ((gs.take k).map fun g => g.advance.x + truncTimes64 r.textSpacingX).sum ∧
      st.y = -(r.textPositionY * 64) - r.lineHeight -
        ((gs.take k).map fun g => g.advance.y).sum ∧
      st.draws.map (·.vertexBuffer) = (gs.take k).filterMap (·.vertexBuffer) := by
  obtain ⟨hx0, hy0⟩ := renderStart_of_inRange r horigin
  constructor
  · intro w0 h0 s0 st0 h0
    have hev := renderLoop_evolves K R _ _ s0 (renderStart r) st0 h0
    obtain ⟨-, -, -, -, h5, h6, h7, -⟩ := hev.1
    rw [← hx0, ← hy0]
    simp only [renderStart, h5, h6, h7, and_self]
  · obtain ⟨st, hloop, hx, hy, hd, -⟩ := renderLoop_glyphs K R width height r (str.take k)
      (gs.take k) (List.forall₂_take k hstr) (renderStart r) (evolves_refl K R r)
      (wrapInt32_isInt32 _) (wrapInt32_isInt32 _)
    refine ⟨st, hloop, ?_, ?_, by simpa [renderStart] using hd⟩
    · rw [hx, hx0, toInt64ths_of_isInt32 hspacing]
      exact wrapInt32_of_isInt32 (hpen k (Nat.le_refl k)).1
    · rw [hy, hy0]
      exact wrapInt32_of_isInt32 (hpen k (Nat.le_refl k)).2

theorem pen_advance_witness :
    (∀ (w0 h0 : Int) (s0 : List Byte) (st0 : RenderState Rgba),
      render rgbaTuples (demoFace .unsignedInt) demoRenderer w0 h0 s0 = some st0 →
        (renderStart st0.self).x = demoRenderer.textPositionX * 64 ∧
        (renderStart st0.self).y =
          -(demoRenderer.textPositionY * 64) - demoRenderer.lineHeight) ∧
    ∃ st, renderLoop rgbaTuples (demoFace .unsignedInt) 800 600 ([65, 32].take 2)
        (renderStart demoRenderer) = some st ∧
      st.x = demoRenderer.textPositionX * 64 +
        (([demoGlyphA, emptyGlyph Rgba (boxSlot 0 0 ⟨256, 0⟩)].take 2).map
          fun g => g.advance.x + truncTimes64 demoRenderer.textSpacingX).sum ∧
      st.y = -(demoRenderer.textPositionY * 64) - demoRenderer.lineHeight -
        (([demoGlyphA, emptyGlyph Rgba (boxSlot 0 0 ⟨256, 0⟩)].take 2).map
          fun g => g.advance.y).sum ∧
      st.draws.map (·.vertexBuffer) =
        ([demoGlyphA, emptyGlyph Rgba (boxSlot 0 0 ⟨256, 0⟩)].take 2).filterMap
          (·.vertexBuffer) :=
  pen_advance rgbaTuples (demoFace .unsignedInt) demoRenderer 800 600 [65, 32]
    [demoGlyphA, emptyGlyph Rgba (boxSlot 0 0 ⟨256, 0⟩)]
    (List.Forall₂.cons ⟨by decide, by decide⟩
      (List.Forall₂.cons ⟨by decide, by decide⟩ List.Forall₂.nil)) 2
    (by decide) (by decide) (by decide)

/-- Claim C7 as stated fails in two ways.  For a fractional spacing: with
`spacingX = 1/128` the pen after `A` (advance 640) is at `x = 640`, since
`(int) (0.5) = 0`, and not at `640 + spacingX * 64 = 640.5`.  Outside the range of
`int`: with `spacingX = 10000000000` the product `640000000000` has no `int`, the
conversion yields `INT_MIN` and the pen after `A` is at `x = -2147483008`, not at
`640 + 640000000000`. -/
theorem pen_advance_fails :
    (renderLoop rgbaTuples (demoFace .unsignedInt) 800 600 [65]
      (renderStart { demoRenderer with textSpacingX := mkRat 1 128 })).map (fun st => st.x) =
      some 640 ∧
    ((640 : Int) : ℚ) ≠ ((0 * 64 : Int) : ℚ) + ((640 : Int) + mkRat 1 128 * 64) ∧
    (renderLoop rgbaTuples (demoFace .unsignedInt) 800 600 [65]
      (renderStart { demoRenderer with textSpacingX := 10000000000 })).map (fun st => st.x) =
      some (-2147483008) ∧
    truncTimes64 10000000000 = 640000000000 ∧
    (-2147483008 : Int) ≠ 0 * 64 + (640 + 640000000000) := by
  refine ⟨by decide, ?_, by decide, by decide, by decide⟩
  rw [Rat.mkRat_eq_div]
  norm_num

/-- Claim C5, as the code has it, for runs in which the `int` computations stay in range
(the origin, the two spacing conversions, `lineHeight + (int) (spacingY * 64)` and the
pen after `A` and after the newline): when `A` resolves to a glyph, rendering `A`,
newline, `B` moves the pen by the advance and spacing of `A` and then handles `B` with
pen `x = positionX * 64` and pen
`y = y (A) - advance_A.y - (lineHeight + trunc (spacingY * 64))`, where `trunc` rounds
toward zero and `y (A) = -(positionY * 64) - lineHeight`, whatever the advance width of
`A`; the newline leaves the object as it was (no glyph lookup, no glyph construction)
and issues no draw call. -/
theorem newline_layout {C : Type} (K : ColourOps C) (R : Rasterizer) (r : FontRenderer C)
    (width height : Int) (a b : Byte) (gA : Glyph C) (ha : charOfByte a ≠ 10)
    (hA : resolvedGlyph K R r (charOfByte a) = some (some gA))
    (horigin : OriginInRange r)
    (hsx : IsInt32 (truncTimes64 r.textSpacingX))
    (hsy : IsInt32 (truncTimes64 r.textSpacingY) ∧
      IsInt32 (r.lineHeight + truncTimes64 r.textSpacingY))
    (hpenA : IsInt32 (r.textPositionX * 64 + (gA.advance.x + truncTimes64 r.textSpacingX)) ∧
      IsInt32 (-(r.textPositionY * 64) - r.lineHeight - gA.advance.y))
    (hpenN : IsInt32 (-(r.textPositionY * 64) - r.lineHeight - gA.advance.y -
      (r.lineHeight + truncTimes64 r.textSpacingY))) :
    ∃ stA stN : RenderState C,
      (renderStart r).y = -(r.textPositionY * 64) - r.lineHeight ∧
      renderLoop K R width height [a] (renderStart r) = some stA ∧
      stA.x = r.textPositionX * 64 + (gA.advance.x + truncTimes64 r.textSpacingX) ∧
      stA.y = -(r.textPositionY * 64) - r.lineHeight - gA.advance.y ∧
      renderLoop K R width height [a, 10] (renderStart r) = some stN ∧
      stN.x = r.textPositionX * 64 ∧
      stN.y = -(r.textPositionY * 64) - r.lineHeight - gA.advance.y -
        (r.lineHeight + truncTimes64 r.textSpacingY) ∧
      stN.self = stA.self ∧ stN.draws = stA.draws ∧
      render K R r width height [a, 10, b] = renderChar K R width height stN b := by
  obtain ⟨hx0, hy0⟩ := renderStart_of_inRange r horigin
  obtain ⟨r1, hr1, hstep⟩ := renderChar_glyph K R width height (renderStart r) a gA ha hA
  obtain ⟨-, -, -, h4, h5, -, h7, -⟩ := (getGlyph_effect K R _ r1 _ _ hr1).1
  simp only [renderStart] at h4 h5 h7
  refine ⟨{ x := wrapInt32 ((renderStart r).x +
              (gA.advance.x + toInt64ths (renderStart r).self.textSpacingX))
            y := wrapInt32 ((renderStart r).y - gA.advance.y)
            self := r1
            draws := (renderStart r).draws ++
              glyphDraws gA (renderStart r).x (renderStart r).y width height },
    { x := wrapInt32 (r1.textPositionX * 64)
      y := wrapInt32 (wrapInt32 ((renderStart r).y - gA.advance.y) -
        (r1.lineHeight + toInt64ths r1.textSpacingY))
      self := r1
      draws := (renderStart r).draws ++
        glyphDraws gA (renderStart r).x (renderStart r).y width height },
    hy0, ?_, ?_, ?_, ?_, ?_, ?_, rfl, rfl, ?_⟩
  · simp only [renderLoop, hstep]
  · simp only [renderStart, toInt64ths_of_isInt32 hsx, wrapInt32_add_left]
    exact wrapInt32_of_isInt32 hpenA.1
  · simp only [hy0]
    exact wrapInt32_of_isInt32 hpenA.2
  · simp only [renderLoop, hstep, renderChar_newline]
  · simp only [h5]
    exact wrapInt32_of_isInt32 horigin.2.1
  · simp only [h4, h7, hy0, toInt64ths_of_isInt32 hsy.1, wrapInt32_of_isInt32 hpenA.2]
    exact wrapInt32_of_isInt32 hpenN
  · simp only [render, renderLoop, hstep, renderChar_newline]
    rcases renderChar K R width height _ b with _ | st2 <;> rfl

theorem newline_layout_witness :
    ∃ stA stN : RenderState Rgba,
      (renderStart demoRenderer).y =
        -(demoRenderer.textPositionY * 64) - demoRenderer.lineHeight ∧
      renderLoop rgbaTuples (demoFace .unsignedInt) 800 600 [65] (renderStart demoRenderer) =
        some stA ∧
      stA.x = demoRenderer.textPositionX * 64 +
        (demoGlyphA.advance.x + truncTimes64 demoRenderer.textSpacingX) ∧
      stA.y = -(demoRenderer.textPositionY * 64) - demoRenderer.lineHeight -
        demoGlyphA.advance.y ∧
      renderLoop rgbaTuples (demoFace .unsignedInt) 800 600 [65, 10]
        (renderStart demoRenderer) = some stN ∧
      stN.x = demoRenderer.textPositionX * 64 ∧
      stN.y = -(demoRenderer.textPositionY * 64) - demoRenderer.lineHeight -
        demoGlyphA.advance.y -
        (demoRenderer.lineHeight + truncTimes64 demoRenderer.textSpacingY) ∧
      stN.self = stA.self ∧ stN.draws = stA.draws ∧
      render rgbaTuples (demoFace .unsignedInt) demoRenderer 800 600 [65, 10, 66] =
        renderChar rgbaTuples (demoFace .unsignedInt) 800 600 stN 66 :=
  newline_layout rgbaTuples (demoFace .unsignedInt) demoRenderer 800 600 65 66 demoGlyphA
    (by decide) (by decide) (by decide) (by decide) (by decide) (by decide) (by decide)

/-- Claim C5 as stated fails in three ways.  With line height 1024 and `y (A) = -1024`:
for the glyph `V`, whose advance has `y = 64`, and spacing 0, the pen of `B` is at
`y = -2112`, not at `y (A) - (L + 64 * 0) = -2048`; for the glyph `A` and
`spacingY = 1/128` it is at `y = -2048`, since `(int) (0.5) = 0`, not at
`y (A) - (L + 64 * spacingY) = -2048.5`.  Outside the range of `int`: with
`positionX = 33554432` the product `positionX * 64 = 2 ^ 31` has no `int`, and the pen
of `B` is at `x = -2147483648`. -/
theorem newline_layout_fails :
    (renderStart demoRenderer).y = -1024 ∧
    (renderLoop rgbaTuples (demoFace .unsignedInt) 800 600 [86, 10]
      (renderStart demoRenderer)).map (fun st => st.y) = some (-2112) ∧
    (-2112 : Int) ≠ -1024 - (1024 + 64 * 0) ∧
    (renderLoop rgbaTuples (demoFace .unsignedInt) 800 600 [65, 10]
      (renderStart { demoRenderer with textSpacingY := mkRat 1 128 })).map (fun st => st.y) =
      some (-2048) ∧
    ((-2048 : Int) : ℚ) ≠ ((-1024 : Int) : ℚ) - ((1024 : Int) + 64 * mkRat 1 128) ∧
    (renderLoop rgbaTuples (demoFace .unsignedInt) 800 600 [65, 10]
      (renderStart { demoRenderer with textPositionX := 33554432 })).map (fun st => st.x) =
      some (-2147483648) ∧
    (-2147483648 : Int) ≠ 33554432 * 64 := by
  refine ⟨by decide, by decide, by decide, by decide, ?_, by decide, by decide⟩
  rw [Rat.mkRat_eq_div]
  norm_num

theorem toUnsignedLong_lt (c : Int) : toUnsignedLong c < 2 ^ 64 := by
  unfold toUnsignedLong
  have h1 : 0 ≤ c % 2 ^ 64 := Int.emod_nonneg _ (by norm_num)
  have h2 : c % 2 ^ 64 < 2 ^ 64 := Int.emod_lt_of_pos _ (by norm_num)
  omega

theorem toUnsignedLong_natCast {i : Nat} (h : i < 2 ^ 64) : toUnsignedLong (i : Int) = i := by
  rw [toUnsignedLong_of_nonneg (by omega) (by omega)]
  simp

/-- A code with a slot whose rendered bitmap is empty resolves to the empty glyph in every
coherent state. -/
theorem resolvedGlyph_of_empty_bitmap {C : Type} (K : ColourOps C) (R : Rasterizer)
    (r : FontRenderer C) (c : Int) (hcoh : CacheCoherent K R r)
    (hslot : toUnsignedLong c < r.glyphs.length) (h0 : (loadRendered R c).1 = 0)
    (he : (loadRendered R c).2.bitmap.width = 0 ∨ (loadRendered R c).2.bitmap.rows = 0) :
    resolvedGlyph K R r c = some (some (emptyGlyph C (loadRendered R c).2)) := by
  have hempty : ∀ r0 : FontRenderer C,
      createGlyph K R r0 c = some (emptyGlyph C (loadRendered R c).2) := fun r0 =>
    createGlyph_of_empty_bitmap K R r0 c h0 he
  rcases hq : r.glyphs[toUnsignedLong c]? with _ | _ | s
  · rw [List.getElem?_eq_none_iff] at hq
    omega
  · unfold resolvedGlyph
    rw [getGlyph_unresolved K R r c hq]
    simp [hempty r]
  · unfold resolvedGlyph
    rw [getGlyph_resolved K R r c s hq]
    obtain ⟨r0, hr0⟩ := hcoh _ s hq
    rw [createGlyph_congr_code K R r0 _ c (toUnsignedLong_natCast (toUnsignedLong_lt c)),
      hempty r0] at hr0
    simp [hr0]

theorem cacheCoherent_of_unresolved {C : Type} (K : ColourOps C) (R : Rasterizer)
    (r : FontRenderer C) (h : ∀ slot ∈ r.glyphs, slot = none) : CacheCoherent K R r := by
  intro i s hs
  have := h _ (List.getElem?_mem hs)
  cases this

/-- Claim C6, as the code has it, for runs in which the `int` computations stay in range
(the origin, the conversion `(int) (spacingX * 64)` and the pen after each character): a
code whose rendered fill bitmap has zero width or zero height makes `createGlyph` return
a glyph without geometry that carries the advance and metrics of the rasterizer; and for
a newline-free string of such code units, each with a slot in the table, `render`
issues no draw call and ends with the pen at
`(x0 + sum (advance.x + trunc (spacingX * 64)), y0 - sum advance.y)`, where `trunc`
rounds toward zero. -/
theorem empty_glyph_layout {C : Type} (K : ColourOps C) (R : Rasterizer)
    (r : FontRenderer C) (width height : Int) (str : List Byte)
    (hlen : r.glyphs.length = 256) (hcoh : CacheCoherent K R r)
    (hstr : ∀ b ∈ str, b.val < 128 ∧ b ≠ 10 ∧ (loadRendered R (charOfByte b)).1 = 0 ∧
      ((loadRendered R (charOfByte b)).2.bitmap.width = 0 ∨
        (loadRendered R (charOfByte b)).2.bitmap.rows = 0))
    (horigin : OriginInRange r) (hspacing : IsInt32 (truncTimes64 r.textSpacingX))
    (hpen : ∀ j, j ≤ str.length →
      IsInt32 (r.textPositionX * 64 + ((str.take j).map fun b =>
        (loadRendered R (charOfByte b)).2.advance.x + truncTimes64 r.textSpacingX).sum) ∧
      IsInt32 (-(r.textPositionY * 64) - r.lineHeight - ((str.take j).map fun b =>
        (loadRendered R (charOfByte b)).2.advance.y).sum)) :
    (∀ c : Int, (loadRendered R c).1 = 0 →
      ((loadRendered R c).2.bitmap.width = 0 ∨ (loadRendered R c).2.bitmap.rows = 0) →
      createGlyph K R r c =
        some { vertexBuffer := none
               advance := (loadRendered R c).2.advance
               metrics := (loadRendered R c).2.metrics }) ∧
    ∃ st, render K R r width height str = some st ∧ st.draws = [] ∧
      st.x = r.textPositionX * 64 + (str.map fun b =>
        (loadRendered R (charOfByte b)).2.advance.x + truncTimes64 r.textSpacingX).sum ∧
      st.y = -(r.textPositionY * 64) - r.lineHeight - (str.map fun b =>
        (loadRendered R (charOfByte b)).2.advance.y).sum := by
  refine ⟨fun c h0 he => createGlyph_of_empty_bitmap K R r c h0 he, ?_⟩
  obtain ⟨hx0, hy0⟩ := renderStart_of_inRange r horigin
  have hall : List.Forall₂ (fun b g => charOfByte b ≠ 10 ∧
      resolvedGlyph K R r (charOfByte b) = some (some g)) str
      (str.map fun b => emptyGlyph C (loadRendered R (charOfByte b)).2) := by
    rw [List.forall₂_map_right_iff]
    apply List.forall₂_same.2
    intro b hb
    obtain ⟨hlow, hnl, h0, he⟩ := hstr b hb
    have hidx : toUnsignedLong (charOfByte b) = b.val := index_of_low_byte hlow
    refine ⟨fun h => hnl ((charOfByte_eq_ten_iff b).1 h), ?_⟩
    exact resolvedGlyph_of_empty_bitmap K R r _ hcoh (by rw [hidx, hlen]; omega) h0 he
  obtain ⟨st, hloop, hx, hy, hd, -⟩ := renderLoop_glyphs K R width height r str _ hall
    (renderStart r) (evolves_refl K R r) (wrapInt32_isInt32 _) (wrapInt32_isInt32 _)
  have hfinal := hpen str.length (Nat.le_refl _)
  rw [List.take_length] at hfinal
  refine ⟨st, hloop, ?_, ?_, ?_⟩
  · have hnone : (str.map fun b => emptyGlyph C (loadRendered R (charOfByte b)).2).filterMap
        (·.vertexBuffer) = [] := by
      rw [List.filterMap_eq_nil_iff]
      intro g hg
      obtain ⟨b, -, rfl⟩ := List.mem_map.1 hg
      rfl
    rw [hnone] at hd
    simpa [renderStart] using hd
  · rw [hx, hx0, List.map_map, toInt64ths_of_isInt32 hspacing]
    exact wrapInt32_of_isInt32 hfinal.1
  · rw [hy, hy0, List.map_map]
    exact wrapInt32_of_isInt32 hfinal.2

theorem empty_glyph_layout_witness :
    (∀ c : Int, (loadRendered (demoFace .unsignedInt) c).1 = 0 →
      ((loadRendered (demoFace .unsignedInt) c).2.bitmap.width = 0 ∨
        (loadRendered (demoFace .unsignedInt) c).2.bitmap.rows = 0) →
      createGlyph rgbaTuples (demoFace .unsignedInt) demoRenderer c =
        some { vertexBuffer := none
               advance := (loadRendered (demoFace .unsignedInt) c).2.advance
               metrics := (loadRendered (demoFace .unsignedInt) c).2.metrics }) ∧
    ∃ st, render rgbaTuples (demoFace .unsignedInt) demoRenderer 800 600 [32, 32] = some st ∧
      st.draws = [] ∧
      st.x = demoRenderer.textPositionX * 64 + (([32, 32] : List Byte).map fun b =>
        (loadRendered (demoFace .unsignedInt) (charOfByte b)).2.advance.x +
          truncTimes64 demoRenderer.textSpacingX).sum ∧
      st.y = -(demoRenderer.textPositionY * 64) - demoRenderer.lineHeight -
        (([32, 32] : List Byte).map fun b =>
          (loadRendered (demoFace .unsignedInt) (charOfByte b)).2.advance.y).sum :=
  empty_glyph_layout rgbaTuples (demoFace .unsignedInt) demoRenderer 800 600 [32, 32]
    (by decide)
    (cacheCoherent_of_unresolved _ _ _ (by decide))
    (by decide) (by decide) (by decide) (by decide)

/-- Claim C6 as stated fails in three ways.  With `spacingX = 1` a single space of
advance 256 moves the pen from `x = 0` to `x = 320`, not by the advance alone; in a face
whose newline glyph has an empty bitmap, the string that consists of a newline moves the
pen from `(0, -1024)` to `(0, -2048)`, not by the advance `(256, 0)`; and with
`spacingX = 10000000000`, whose product with 64 has no `int`, a single space moves the
pen to `x = -2147483392`.  None of the runs issues a draw call. -/
theorem empty_glyph_layout_fails :
    (loadRendered (demoFace .unsignedInt) (charOfByte 32)).2.bitmap.width = 0 ∧
    (loadRendered (demoFace .unsignedInt) (charOfByte 32)).2.advance = ⟨256, 0⟩ ∧
    (render rgbaTuples (demoFace .unsignedInt) { demoRenderer with textSpacingX := 1 }
      800 600 [32]).map (fun st => (st.draws.length, st.x, st.y)) = some (0, 320, -1024) ∧
    (320 : Int) ≠ 0 + 256 ∧
    (loadRendered blankFace (charOfByte 10)).1 = 0 ∧
    (loadRendered blankFace (charOfByte 10)).2.bitmap.width = 0 ∧
    (loadRendered blankFace (charOfByte 10)).2.advance = ⟨256, 0⟩ ∧
    (renderStart demoRenderer).x = 0 ∧ (renderStart demoRenderer).y = -1024 ∧
    (render rgbaTuples blankFace demoRenderer 800 600 [10]).map
      (fun st => (st.draws.length, st.x, st.y)) = some (0, 0, -2048) ∧
    (render rgbaTuples (demoFace .unsignedInt)
      { demoRenderer with textSpacingX := 10000000000 } 800 600 [32]).map
      (fun st => (st.draws.length, st.x, st.y)) = some (0, -2147483392, -1024) ∧
    truncTimes64 10000000000 = 640000000000 ∧
    (-2147483392 : Int) ≠ 0 + (256 + 640000000000) := by
  decide

/-! ## Invariants of the glyph table -/

/-- A resolved slot is never written again by `getGlyph`. -/
theorem getGlyph_keeps_resolved {C : Type} (K : ColourOps C) (R : Rasterizer)
    (r r1 : FontRenderer C) (d : Int) (g : Option (Glyph C))
    (h : getGlyph K R r d = some (g, r1)) (i : Nat) (s : Optional (Glyph C))
    (hs : r.glyphs[i]? = some (some s)) : r1.glyphs[i]? = some (some s) := by
  obtain ⟨-, -, -, hother, -, hcase⟩ := getGlyph_effect K R r r1 d g h
  by_cases hi : i = toUnsignedLong d
  · subst hi
    rcases hcase with ⟨hold, -, -⟩ | ⟨-, hgl, -⟩
    · rw [hs] at hold
      cases hold
    · rw [hgl]
      exact hs
  · rw [hother i hi]
    exact hs

theorem getGlyph_coherent {C : Type} (K : ColourOps C) (R : Rasterizer)
    (r r1 : FontRenderer C) (d : Int) (g : Option (Glyph C))
    (h : getGlyph K R r d = some (g, r1)) (hcoh : CacheCoherent K R r) :
    CacheCoherent K R r1 := by
  obtain ⟨-, -, hnew, hother, -, hcase⟩ := getGlyph_effect K R r r1 d g h
  intro i s hs
  by_cases hi : i = toUnsignedLong d
  · subst hi
    rcases hcase with ⟨-, hg, -⟩ | ⟨-, hgl, -⟩
    · rw [hnew] at hs
      simp only [Option.some.injEq] at hs
      subst hs
      refine ⟨r, ?_⟩
      rw [hg]
      exact createGlyph_congr_code K R r d _ (toUnsignedLong_natCast (toUnsignedLong_lt d)).symm
    · rw [hgl] at hs
      exact hcoh _ s hs
  · rw [hother i hi] at hs
    exact hcoh _ s hs

theorem getGlyph_createdOnce {C : Type} (K : ColourOps C) (R : Rasterizer)
    (r r1 : FontRenderer C) (d : Int) (g : Option (Glyph C))
    (h : getGlyph K R r d = some (g, r1)) (hinv : CreatedOnce r) : CreatedOnce r1 := by
  obtain ⟨-, -, hnew, -, -, hcase⟩ := getGlyph_effect K R r r1 d g h
  obtain ⟨hnd, hres⟩ := hinv
  rcases hcase with ⟨hold, -, hcr⟩ | ⟨-, hgl, hcr⟩
  · refine ⟨?_, ?_⟩
    · rw [hcr, List.map_append, List.map_singleton]
      refine List.Nodup.append hnd (List.nodup_singleton _) ?_
      rw [List.disjoint_singleton]
      intro hmem
      obtain ⟨c, hc, hcd⟩ := List.mem_map.1 hmem
      obtain ⟨s, hs⟩ := hres c hc
      rw [hcd, hold] at hs
      cases hs
    · intro c hc
      rw [hcr, List.mem_append, List.mem_singleton] at hc
      rcases hc with hc | rfl
      · obtain ⟨s, hs⟩ := hres c hc
        exact ⟨s, getGlyph_keeps_resolved K R r r1 d g h _ s hs⟩
      · exact ⟨_, hnew⟩
  · refine ⟨by rw [hcr]; exact hnd, ?_⟩
    intro c hc
    rw [hcr] at hc
    rw [hgl]
    exact hres c hc

/-- The three facts that every step of `render` and every client call preserves. -/
theorem renderChar_invariants {C : Type} (K : ColourOps C) (R : Rasterizer)
    (width height : Int) (st st1 : RenderState C) (b : Byte)
    (h : renderChar K R width height st b = some st1) :
    (CacheCoherent K R st.self → CacheCoherent K R st1.self) ∧
    (CreatedOnce st.self → CreatedOnce st1.self) ∧
    (∀ (i : Nat) (s : Optional (Glyph C)), st.self.glyphs[i]? = some (some s) →
      st1.self.glyphs[i]? = some (some s)) := by
  by_cases hb : charOfByte b = 10
  · rw [(charOfByte_eq_ten_iff b).1 hb, renderChar_newline] at h
    cases h
    exact ⟨id, id, fun _ _ hs => hs⟩
  · unfold renderChar at h
    simp only [hb, if_false] at h
    rcases hq : getGlyph K R st.self (charOfByte b) with _ | ⟨g, r1⟩
    · simp [hq] at h
    · have h1 := getGlyph_coherent K R st.self r1 _ g hq
      have h2 := getGlyph_createdOnce K R st.self r1 _ g hq
      have h3 := getGlyph_keeps_resolved K R st.self r1 _ g hq
      rcases g with _ | g
      · simp only [hq, Option.some.injEq] at h
        subst h
        exact ⟨h1, h2, h3⟩
      · simp only [hq, Option.some.injEq] at h
        subst h
        exact ⟨h1, h2, h3⟩

theorem renderLoop_invariants {C : Type} (K : ColourOps C) (R : Rasterizer)
    (width height : Int) (str : List Byte) (st st1 : RenderState C)
    (h : renderLoop K R width height str st = some st1) :
    (CacheCoherent K R st.self → CacheCoherent K R st1.self) ∧
    (CreatedOnce st.self → CreatedOnce st1.self) ∧
    (∀ (i : Nat) (s : Optional (Glyph C)), st.self.glyphs[i]? = some (some s) →
      st1.self.glyphs[i]? = some (some s)) := by
  induction str generalizing st with
  | nil =>
    simp only [renderLoop, Option.some.injEq] at h
    subst h
    exact ⟨id, id, fun _ _ hs => hs⟩
  | cons b rest ih =>
    unfold renderLoop at h
    rcases hq : renderChar K R width height st b with _ | st2
    · simp [hq] at h
    · simp only [hq] at h
      obtain ⟨a1, a2, a3⟩ := renderChar_invariants K R width height st st2 b hq
      obtain ⟨b1, b2, b3⟩ := ih st2 h
      exact ⟨fun x => b1 (a1 x), fun x => b2 (a2 x), fun i s hs => b3 i s (a3 i s hs)⟩

theorem runCall_invariants {C : Type} (K : ColourOps C) (R : Rasterizer)
    (r r1 : FontRenderer C) (call : Call C) (h : runCall K R r call = some r1) :
    (CacheCoherent K R r → CacheCoherent K R r1) ∧
    (CreatedOnce r → CreatedOnce r1) ∧
    (∀ (i : Nat) (s : Optional (Glyph C)), r.glyphs[i]? = some (some s) →
      r1.glyphs[i]? = some (some s)) := by
  cases call with
  | render width height str =>
    simp only [runCall, render, Option.map_eq_some'] at h
    obtain ⟨st1, hst1, rfl⟩ := h
    exact renderLoop_invariants K R width height str (renderStart r) st1 hst1
  | getGlyph c =>
    simp only [runCall, Option.map_eq_some'] at h
    obtain ⟨⟨g, r2⟩, hq, rfl⟩ := h
    exact ⟨getGlyph_coherent K R r r2 c g hq, getGlyph_createdOnce K R r r2 c g hq,
      getGlyph_keeps_resolved K R r r2 c g hq⟩
  | setTextSpacingX q => cases h; exact ⟨id, id, fun _ _ hs => hs⟩
  | setTextSpacingY q => cases h; exact ⟨id, id, fun _ _ hs => hs⟩
  | setTextPositionX p => cases h; exact ⟨id, id, fun _ _ hs => hs⟩
  | setTextPositionY p => cases h; exact ⟨id, id, fun _ _ hs => hs⟩
  | setFontColour col => cases h; exact ⟨id, id, fun _ _ hs => hs⟩
  | setFontOutlineColour col => cases h; exact ⟨id, id, fun _ _ hs => hs⟩

theorem runCalls_invariants {C : Type} (K : ColourOps C) (R : Rasterizer)
    (calls : List (Call C)) (r r1 : FontRenderer C) (h : runCalls K R calls r = some r1) :
    (CacheCoherent K R r → CacheCoherent K R r1) ∧
    (CreatedOnce r → CreatedOnce r1) ∧
    (∀ (i : Nat) (s : Optional (Glyph C)), r.glyphs[i]? = some (some s) →
      r1.glyphs[i]? = some (some s)) := by
  induction calls generalizing r with
  | nil =>
    simp only [runCalls, Option.some.injEq] at h
    subst h
    exact ⟨id, id, fun _ _ hs => hs⟩
  | cons call rest ih =>
    unfold runCalls at h
    rcases hq : runCall K R r call with _ | r2
    · simp [hq] at h
    · simp only [hq] at h
      obtain ⟨a1, a2, a3⟩ := runCall_invariants K R r r2 call hq
      obtain ⟨b1, b2, b3⟩ := ih r2 h
      exact ⟨fun x => b1 (a1 x), fun x => b2 (a2 x), fun i s hs => b3 i s (a3 i s hs)⟩

/-- The object the constructor returns satisfies the invariants. -/
theorem newFontRenderer_invariants {C : Type} (K : ColourOps C) (R : Rasterizer)
    (fc : FontConfig) (ft : FreeTypeSetup) (name : String)
    (fontSize horizontalDPI verticalDPI : Int) (outlineWidth : ℚ) (r : FontRenderer C)
    (h : (newFontRenderer K fc ft name fontSize horizontalDPI verticalDPI outlineWidth).2 =
      .ok r) :
    r.glyphs = List.replicate 256 none ∧ r.created = [] ∧ CacheCoherent K R r ∧
      CreatedOnce r := by
  have hr : r.glyphs = List.replicate 256 none ∧ r.created = [] := by
    unfold newFontRenderer at h
    simp only at h
    split at h
    · cases h
    · split at h
      · cases h
      · split at h
        · cases h
        · split at h
          · cases h
          · simp only [Except.ok.injEq] at h
            subst h
            exact ⟨rfl, rfl⟩
  refine ⟨hr.1, hr.2, ?_, ?_⟩
  · apply cacheCoherent_of_unresolved
    intro slot hslot
    rw [hr.1] at hslot
    exact List.eq_of_mem_replicate hslot
  · refine ⟨by rw [hr.2]; exact List.nodup_nil, ?_⟩
    intro c hc
    rw [hr.2] at hc
    cases hc

/-- Memoization for the codes that have a slot: once `getGlyph c` has returned, the slot
of `c` holds the returned pointer (also when it is null) and no other slot has changed;
after any further calls that run to completion, `getGlyph c` returns the same pointer,
leaves the table alone and does not call `createGlyph`. -/
theorem getGlyph_memoized {C : Type} (K : ColourOps C) (R : Rasterizer)
    (r r1 : FontRenderer C) (c : Int) (g : Option (Glyph C))
    (h : getGlyph K R r c = some (g, r1)) :
    r1.glyphs[toUnsignedLong c]? = some (some (Optional.mk g)) ∧
    (∀ j : Nat, j ≠ toUnsignedLong c → r1.glyphs[j]? = r.glyphs[j]?) ∧
    ∀ (calls : List (Call C)) (r2 : FontRenderer C), runCalls K R calls r1 = some r2 →
      getGlyph K R r2 c = some (g, { r2 with lookups := r2.lookups ++ [c] }) := by
  obtain ⟨-, -, hnew, hother, -, -⟩ := getGlyph_effect K R r r1 c g h
  refine ⟨hnew, hother, fun calls r2 hrun => ?_⟩
  have hkept := (runCalls_invariants K R calls r1 r2 hrun).2.2 _ _ hnew
  exact getGlyph_resolved K R r2 c _ hkept

/-- At most one `createGlyph` per code: in every state reached from a constructed object
by calls that run to completion, no code occurs twice in the log of `createGlyph`. -/
theorem createGlyph_at_most_once {C : Type} (K : ColourOps C) (R : Rasterizer)
    (r r1 : FontRenderer C) (calls : List (Call C)) (hinv : CreatedOnce r)
    (hrun : runCalls K R calls r = some r1) (c : Int) : r1.created.count c ≤ 1 := by
  have hnd := ((runCalls_invariants K R calls r r1 hrun).2.1 hinv).1
  exact List.nodup_iff_count_le_one.1 (List.Nodup.of_map _ hnd) c

/-- A code with a slot whose glyph fails to load resolves to the null pointer in every
coherent state. -/
theorem resolvedGlyph_of_load_error {C : Type} (K : ColourOps C) (R : Rasterizer)
    (r : FontRenderer C) (c : Int) (hcoh : CacheCoherent K R r)
    (hslot : toUnsignedLong c < r.glyphs.length) (h0 : (loadRendered R c).1 ≠ 0) :
    resolvedGlyph K R r c = some none := by
  have hnull : ∀ r0 : FontRenderer C, createGlyph K R r0 c = none := fun r0 =>
    createGlyph_of_load_error K R r0 c h0
  rcases hq : r.glyphs[toUnsignedLong c]? with _ | _ | s
  · rw [List.getElem?_eq_none_iff] at hq
    omega
  · unfold resolvedGlyph
    rw [getGlyph_unresolved K R r c hq]
    simp [hnull r]
  · unfold resolvedGlyph
    rw [getGlyph_resolved K R r c s hq]
    obtain ⟨r0, hr0⟩ := hcoh _ s hq
    rw [createGlyph_congr_code K R r0 _ c (toUnsignedLong_natCast (toUnsignedLong_lt c)),
      hnull r0] at hr0
    simp [hr0]

/-- A character whose glyph fails to load is skipped: no draw call, pen unchanged. -/
theorem renderChar_of_load_error {C : Type} (K : ColourOps C) (R : Rasterizer)
    (width height : Int) (st : RenderState C) (b : Byte) (hb : charOfByte b ≠ 10)
    (hcoh : CacheCoherent K R st.self)
    (hslot : toUnsignedLong (charOfByte b) < st.self.glyphs.length)
    (h0 : (loadRendered R (charOfByte b)).1 ≠ 0) :
    ∃ st1, renderChar K R width height st b = some st1 ∧ st1.x = st.x ∧ st1.y = st.y ∧
      st1.draws = st.draws := by
  obtain ⟨r1, -, hstep⟩ := renderChar_absent K R width height st b hb
    (resolvedGlyph_of_load_error K R st.self _ hcoh hslot h0)
  exact ⟨_, hstep, rfl, rfl, rfl⟩

/-! ## Code units without a slot, codes without a mapping -/

/-- A code unit of the upper half is a negative `char`; as a table index it is at least
`2 ^ 64 - 128`. -/
theorem index_of_high_byte {b : Byte} (h : 128 ≤ b.val) :
    toUnsignedLong (charOfByte b) = 2 ^ 64 - 256 + b.val := by
  have hb := b.isLt
  unfold toUnsignedLong charOfByte
  rw [if_neg (by omega)]
  omega

/-- On a table of 256 slots `getGlyph` leaves the table for every code unit of the upper
half, and so does a `render` call that reaches such a code unit. -/
theorem getGlyph_of_high_byte {C : Type} (K : ColourOps C) (R : Rasterizer)
    (r : FontRenderer C) (hlen : r.glyphs.length = 256) {b : Byte} (h : 128 ≤ b.val) :
    getGlyph K R r (charOfByte b) = none := by
  apply getGlyph_outside
  rw [index_of_high_byte h, hlen]
  omega

/-- Claim C9 fails on the code: the byte 233 is the `char` -23, which `glyphs[c]`
converts to the index `2 ^ 64 - 23`, and every code unit from 128 to 255 gives an index
outside the 256 slots. -/
theorem cache_index_of_high_bytes :
    charOfByte 233 = -23 ∧
    toUnsignedLong (charOfByte 233) = 18446744073709551593 ∧
    (∀ b : Byte, 128 ≤ b.val → 256 ≤ toUnsignedLong (charOfByte b)) ∧
    (∀ b : Byte, b.val < 128 → toUnsignedLong (charOfByte b) < 256) := by
  refine ⟨by decide, by decide, fun b hb => ?_, fun b hb => ?_⟩
  · rw [index_of_high_byte hb]
    omega
  · rw [index_of_low_byte hb]
    omega

/-- Claim C1 fails on the code for the code unit 233: on a renderer with 256 unresolved
slots `getGlyph` accesses the table outside its storage, so no slot is resolved, and a
`render` call on a string that holds the code unit does not complete, also after the
glyph of `A` has been built. -/
theorem memoization_fails_for_byte_233 :
    demoRenderer.glyphs.length = 256 ∧
    getGlyph rgbaTuples (demoFace .unsignedInt) demoRenderer (charOfByte 233) = none ∧
    render rgbaTuples (demoFace .unsignedInt) demoRenderer 800 600 [233] = none ∧
    render rgbaTuples (demoFace .unsignedInt) demoRenderer 800 600 [65, 233, 233] = none := by
  refine ⟨by decide, by rfl, by decide, by decide⟩

/-- Claim C4 fails on the code: in `demoFace` the code 1 has no mapping
(`FT_Get_Char_Index` gives 0), yet `createGlyph` loads glyph 0, the missing-glyph box,
and returns a glyph with geometry; `render` then issues a draw call for the character and
moves the pen from `x = 0` to `x = 192`. -/
theorem unmapped_code_is_drawn :
    (demoFace .unsignedInt).FT_Get_Char_Index (toUnsignedLong (charOfByte 1)) = 0 ∧
    ((createGlyph rgbaTuples (demoFace .unsignedInt) demoRenderer (charOfByte 1)).bind
      (·.vertexBuffer)).isSome = true ∧
    (renderStart demoRenderer).x = 0 ∧ (renderStart demoRenderer).y = -1024 ∧
    (render rgbaTuples (demoFace .unsignedInt) demoRenderer 800 600 [1]).map
      (fun st => (st.draws.length, st.x, st.y)) = some (1, 192, -1024) := by
  decide

/-! ## States reached from a constructed object -/

theorem runCall_length {C : Type} (K : ColourOps C) (R : Rasterizer)
    (r r1 : FontRenderer C) (call : Call C) (h : runCall K R r call = some r1) :
    r1.glyphs.length = r.glyphs.length := by
  cases call with
  | render width height str =>
    simp only [runCall, render, Option.map_eq_some'] at h
    obtain ⟨st1, hst1, rfl⟩ := h
    exact (renderLoop_evolves K R width height str (renderStart r) st1 hst1).2.1
  | getGlyph c =>
    simp only [runCall, Option.map_eq_some'] at h
    obtain ⟨⟨g, r2⟩, hq, rfl⟩ := h
    exact (getGlyph_effect K R r r2 c g hq).2.1
  | setTextSpacingX q => cases h; rfl
  | setTextSpacingY q => cases h; rfl
  | setTextPositionX p => cases h; rfl
  | setTextPositionY p => cases h; rfl
  | setFontColour col => cases h; rfl
  | setFontOutlineColour col => cases h; rfl

theorem runCalls_length {C : Type} (K : ColourOps C) (R : Rasterizer)
    (calls : List (Call C)) (r r1 : FontRenderer C) (h : runCalls K R calls r = some r1) :
    r1.glyphs.length = r.glyphs.length := by
  induction calls generalizing r with
  | nil =>
    simp only [runCalls, Option.some.injEq] at h
    subst h
    rfl
  | cons call rest ih =>
    unfold runCalls at h
    rcases hq : runCall K R r call with _ | r2
    · simp [hq] at h
    · simp only [hq] at h
      exact (ih r2 h).trans (runCall_length K R r r2 call hq)

/-- Every state reached from a constructed object by calls that run to completion has a
table of 256 slots that is coherent with the rasterizer, and `createGlyph` has run at
most once for each code. -/
theorem reachable_state {C : Type} (K : ColourOps C) (R : Rasterizer)
    (fc : FontConfig) (ft : FreeTypeSetup) (name : String)
    (fontSize horizontalDPI verticalDPI : Int) (outlineWidth : ℚ) (r0 r : FontRenderer C)
    (calls : List (Call C))
    (hnew : (newFontRenderer K fc ft name fontSize horizontalDPI verticalDPI outlineWidth).2 =
      .ok r0)
    (hrun : runCalls K R calls r0 = some r) :
    r.glyphs.length = 256 ∧ CacheCoherent K R r ∧ ∀ c : Int, r.created.count c ≤ 1 := by
  obtain ⟨hgl, -, hcoh, hinv⟩ := newFontRenderer_invariants K R fc ft name fontSize
    horizontalDPI verticalDPI outlineWidth r0 hnew
  refine ⟨?_, (runCalls_invariants K R calls r0 r hrun).1 hcoh,
    createGlyph_at_most_once K R r0 r calls hinv hrun⟩
  rw [runCalls_length K R calls r0 r hrun, hgl]
  simp

end glxosd
